import Mathlib

/-!
Verification of the annotation-driven code-weaving engine of `go-decorator`
(`src/cmd/decorator`): directive parsing, lint-rule checking, decorator
resolution, import-table name derivation, type-level directive propagation,
directive-chain weaving order, and replacement-descriptor construction.

The Go sources are shallowly embedded: strings are `List Char`, Go maps whose
iteration order never matters are association lists, `float64` values that the
engine only ever obtains from decimal literals are modelled as `Rat`, and
functions that in Go report a fatal error are modelled as `Except`.  Where the
engine delegates to Go's own expression grammar (`parser.ParseExpr` on a
directive payload wrapped in `map[any]any{...}`), the embedding implements the
fragment of that grammar the engine's inputs can exercise: identifiers,
string/int/float basic literals, unary `+`/`-`, `key: value` pairs and nested
brace composite literals.
-/

namespace GoDecorator

abbrev Chars := List Char

/-- Whitespace predicate used to model `strings.TrimSpace` / token separation
(ASCII whitespace, which is all the engine's inputs contain). -/
def goIsSpace (c : Char) : Bool :=
  c = ' ' || c = '\t' || c = '\n' || c = '\r' || c = '\x0b' || c = '\x0c'

/-- Go's `strings.TrimSpace`. -/
def trimSpace (s : Chars) : Chars :=
  ((s.dropWhile goIsSpace).reverse.dropWhile goIsSpace).reverse

/-- Go's `strings.Cut(s, "#")` for the single-character separator used by the
directive parser: text before the first `#`, text after it, and whether a `#`
was found. -/
def goCutHash : Chars → Chars × Chars × Bool
  | [] => ([], [], false)
  | c :: cs =>
    if c = '#' then ([], cs, true)
    else
      let r := goCutHash cs
      (c :: r.1, r.2.1, r.2.2)

/-- Go's `strings.TrimLeft(s, cutset)`: removes *all* leading characters contained
in the cutset (not a prefix removal). -/
def goTrimLeftCutset (s cutset : Chars) : Chars :=
  s.dropWhile (fun c => cutset.contains c)

/-- Go's `strings.TrimRight(s, cutset)`: removes all trailing characters contained
in the cutset. -/
def goTrimRightCutset (s cutset : Chars) : Chars :=
  (s.reverse.dropWhile (fun c => cutset.contains c)).reverse

/-- The opening brace character (ASCII 123). -/
def lbC : Char := Char.ofNat 123

/-- The closing brace character (ASCII 125). -/
def rbC : Char := Char.ofNat 125

/-- First character of a Go identifier (the engine's inputs are ASCII). -/
def identStart (c : Char) : Bool := c.isAlpha || c = '_'

/-- Subsequent character of a Go identifier. -/
def identChar (c : Char) : Bool := c.isAlpha || c = '_' || c.isDigit

/-- A valid (ASCII) Go identifier. -/
def isGoIdent (s : Chars) : Bool :=
  match s with
  | [] => false
  | c :: cs => identStart c && cs.all identChar

/-- Go's `strings.Split(s, "/")`-style split on a single character. -/
def splitOnChar (c : Char) : Chars → List Chars
  | [] => [[]]
  | x :: xs =>
    match splitOnChar c xs with
    | [] => [[]]
    | h :: t => if x = c then [] :: h :: t else (x :: h) :: t

/-- Digits of a decimal numeral, folded to a natural number. -/
def digitsToNat (s : Chars) : Nat :=
  s.foldl (fun acc c => acc * 10 + (c.toNat - '0'.toNat)) 0

/-- Go's `strconv.Atoi` on the inputs the importer can see: optional sign followed
by one or more decimal digits; anything else is a parse error (`none`). -/
def goAtoi (s : Chars) : Option Int :=
  match s with
  | [] => none
  | '+' :: rest =>
    if rest ≠ [] && rest.all Char.isDigit then some (digitsToNat rest : Int) else none
  | '-' :: rest =>
    if rest ≠ [] && rest.all Char.isDigit then some (-(digitsToNat rest : Int)) else none
  | _ =>
    if s.all Char.isDigit then some (digitsToNat s : Int) else none

/-- Go's `strconv.ParseFloat` on the decimal literals the lint engine feeds it:
optional sign, integer digits, optional fractional digits.  The result is kept
exact as a rational; the literals the engine compares are small decimals, where
this agrees with `float64`. -/
def goParseFloat (s : Chars) : Option Rat :=
  let core : Chars → Option Rat := fun t =>
    let ip := t.takeWhile Char.isDigit
    let rest := t.dropWhile Char.isDigit
    if ip = [] then none
    else
      match rest with
      | [] => some (digitsToNat ip : Rat)
      | '.' :: frac =>
        if frac.all Char.isDigit then
          some ((digitsToNat ip : Rat) + (digitsToNat frac : Rat) / ((10 : Rat) ^ frac.length))
        else none
      | _ => none
  match s with
  | '+' :: t => core t
  | '-' :: t => (core t).map Neg.neg
  | _ => core s

/-- Go's `val, _ := strconv.ParseFloat(value, 64)`: a failed parse leaves the zero
value. -/
def goParseFloatD (s : Chars) : Rat := (goParseFloat s).getD 0

/-! ### The embedded fragment of Go's expression grammar

`parseDecorParameterStringToExprList` hands the brace-delimited parameter text
to Go's parser (prefixed with `map[any]any`) and works on the resulting
`[]ast.Expr`.  The engine only ever consumes identifiers, basic literals,
signed basic literals, `key: value` pairs and nested brace composite literals,
so those are the expression forms embedded here. -/

/-- Go's `token.Kind` of the basic literals the engine's grammar fragment
produces (`token.INT`, `token.FLOAT`, `token.STRING`). -/
inductive LitKind where
  | intK
  | floatK
  | strK
  deriving DecidableEq, Repr

/-- Unary operators accepted on literals (`token.ADD`, `token.SUB`). -/
inductive UOp where
  | add
  | sub
  deriving DecidableEq, Repr

/-- The `ast.Expr` fragment the engine consumes.  `basicLit` keeps the source
text of the literal (Go's `BasicLit.Value`), so string literals keep their
surrounding quotes. -/
inductive GoExpr where
  | basicLit (kind : LitKind) (value : Chars)
  | identE (name : Chars)
  | unary (op : UOp) (x : GoExpr)
  | keyValue (key value : GoExpr)
  | composite (elts : List GoExpr)
  deriving Repr

/-- Tokens of the parameter-text grammar. -/
inductive PTok where
  | lb
  | rb
  | comma
  | colon
  | plusT
  | minusT
  | litStr (v : Chars)
  | litInt (v : Chars)
  | litFloat (v : Chars)
  | idT (v : Chars)
  deriving DecidableEq, Repr

/-- Body of a string literal after the opening quote: source text up to and
including the closing quote, plus the remaining input.  Escaped characters are
kept verbatim, as Go's `BasicLit.Value` does. -/
def strBody : Chars → Option (Chars × Chars)
  | [] => none
  | '"' :: rest => some (['"'], rest)
  | '\\' :: c :: rest => (strBody rest).map (fun p => ('\\' :: c :: p.1, p.2))
  | c :: rest => (strBody rest).map (fun p => (c :: p.1, p.2))

/-- Tokenizer for the parameter text (fuel-indexed; fuel `length + 1` always
suffices since every step consumes at least one character). -/
def tokenize : Nat → Chars → Option (List PTok)
  | 0, _ => none
  | _ + 1, [] => some []
  | fuel + 1, c :: cs =>
    if goIsSpace c then tokenize fuel cs
    else if c = lbC then (tokenize fuel cs).map (PTok.lb :: ·)
    else if c = rbC then (tokenize fuel cs).map (PTok.rb :: ·)
    else if c = ',' then (tokenize fuel cs).map (PTok.comma :: ·)
    else if c = ':' then (tokenize fuel cs).map (PTok.colon :: ·)
    else if c = '+' then (tokenize fuel cs).map (PTok.plusT :: ·)
    else if c = '-' then (tokenize fuel cs).map (PTok.minusT :: ·)
    else if c = '"' then
      match strBody cs with
      | none => none
      | some (v, rest) => (tokenize fuel rest).map (PTok.litStr ('"' :: v) :: ·)
    else if c.isDigit then
      let ds := c :: cs.takeWhile Char.isDigit
      let rest := cs.dropWhile Char.isDigit
      match rest with
      | '.' :: rest' =>
        let fs := rest'.takeWhile Char.isDigit
        (tokenize fuel (rest'.dropWhile Char.isDigit)).map
          (PTok.litFloat (ds ++ '.' :: fs) :: ·)
      | _ => (tokenize fuel rest).map (PTok.litInt ds :: ·)
    else if identStart c then
      let nm := c :: cs.takeWhile identChar
      (tokenize fuel (cs.dropWhile identChar)).map (PTok.idT nm :: ·)
    else none

mutual

/-- One operand: literal, signed literal, identifier, or nested brace
composite literal. -/
def parsePrimary : Nat → List PTok → Option (GoExpr × List PTok)
  | 0, _ => none
  | fuel + 1, toks =>
    match toks with
    | PTok.litStr v :: r => some (GoExpr.basicLit LitKind.strK v, r)
    | PTok.litInt v :: r => some (GoExpr.basicLit LitKind.intK v, r)
    | PTok.litFloat v :: r => some (GoExpr.basicLit LitKind.floatK v, r)
    | PTok.idT v :: r => some (GoExpr.identE v, r)
    | PTok.plusT :: r =>
      (parsePrimary fuel r).map (fun p => (GoExpr.unary UOp.add p.1, p.2))
    | PTok.minusT :: r =>
      (parsePrimary fuel r).map (fun p => (GoExpr.unary UOp.sub p.1, p.2))
    | PTok.lb :: r =>
      (parseElems fuel r).map (fun p => (GoExpr.composite p.1, p.2))
    | _ => none

/-- One element: an operand, optionally `: operand` forming a key/value
pair. -/
def parseElem : Nat → List PTok → Option (GoExpr × List PTok)
  | 0, _ => none
  | fuel + 1, toks =>
    match parsePrimary fuel toks with
    | none => none
    | some (e, r) =>
      match r with
      | PTok.colon :: r' =>
        (parsePrimary fuel r').map (fun p => (GoExpr.keyValue e p.1, p.2))
      | _ => some (e, r)

/-- Comma-separated elements up to the closing brace (Go allows a trailing
comma). -/
def parseElems : Nat → List PTok → Option (List GoExpr × List PTok)
  | 0, _ => none
  | fuel + 1, toks =>
    match toks with
    | PTok.rb :: r => some ([], r)
    | _ =>
      match parseElem fuel toks with
      | none => none
      | some (e, r) =>
        match r with
        | PTok.comma :: r' => (parseElems fuel r').map (fun p => (e :: p.1, p.2))
        | PTok.rb :: r' => some ([e], r')
        | _ => none

end

/-! ### Directive parsing (`checker.go`) -/

/-- The error values of `checker.go`; distinct `errors.New` messages become
distinct constructors (payloads carry the interpolated key). -/
inductive DecorErr where
  /-- Go's `errUsedDecorSyntaxErrorLossFunc`. -/
  | lossFunc
  /-- Go's `errUsedDecorSyntaxErrorLossValue`. -/
  | lossValue
  /-- Go's `errUsedDecorSyntaxErrorInvalidP`. -/
  | invalidP
  /-- Go's `errUsedDecorSyntaxError`. -/
  | syntaxErr
  /-- Go's `"invalid parameter name"`. -/
  | invalidParamName
  /-- Go's `"invalid parameters value, key '<k>'"`. -/
  | invalidParamsValue (key : Chars)
  /-- Go's `"duplicate parameters key '<k>'"`. -/
  | dupKey (key : Chars)
  /-- Go's `"invalid parameter value, should be bool"`. -/
  | shouldBeBool
  /-- Go's `"invalid parameter value"` (non-literal value form). -/
  | invalidParamValue
  deriving DecidableEq, Repr

/-- Go's `parseDecorParameterStringToExprList`: prefixes the text with
`map[any]any`, parses it, and returns the composite literal's elements; a
parse failure, leftover input, or a `nil` element list (empty braces) is
`errUsedDecorSyntaxErrorInvalidP`. -/
def parseDecorParameterStringToExprList (s : Chars) : Except DecorErr (List GoExpr) :=
  match tokenize (s.length + 1) s with
  | none => Except.error DecorErr.invalidP
  | some toks =>
    match toks with
    | PTok.lb :: rest =>
      match parseElems (toks.length + 1) rest with
      | some ([], []) => Except.error DecorErr.invalidP
      | some (elts, []) => Except.ok elts
      | _ => Except.error DecorErr.invalidP
    | _ => Except.error DecorErr.invalidP

/-- Go's `realBasicLit`: unwraps a basic literal or a sign applied to one; a
leading minus is folded into the literal text. -/
def realBasicLit : GoExpr → Option (LitKind × Chars)
  | GoExpr.basicLit k v => some (k, v)
  | GoExpr.unary UOp.add (GoExpr.basicLit k v) => some (k, v)
  | GoExpr.unary UOp.sub (GoExpr.basicLit k v) => some (k, '-' :: v)
  | _ => none

/-- The `ident` helper inside `decorStmtListToMap`: name of an identifier
expression, `""` otherwise. -/
def identOf : GoExpr → Chars
  | GoExpr.identE n => n
  | _ => []

/-- Association-list lookup (Go map read). -/
def assocGet (m : List (Chars × Chars)) (k : Chars) : Option Chars :=
  (m.find? (fun p => p.1 = k)).map (·.2)

/-- Go's `mapV.put`: fails (returns `none`) on a duplicate key, otherwise appends,
preserving insertion order. -/
def mapVput (m : List (Chars × Chars)) (k v : Chars) : Option (List (Chars × Chars)) :=
  if (assocGet m k).isSome then none else some (m ++ [(k, v)])

/-- Go's `decorStmtListToMap`: folds `key: literal` pairs into the ordered
parameter map.  In the embedded grammar fragment every basic literal is a
string/int/float, so the source's unreachable default branch for other literal
kinds has no counterpart. -/
def decorStmtListToMap : List GoExpr → List (Chars × Chars) →
    Except DecorErr (List (Chars × Chars))
  | [], p => Except.ok p
  | e :: rest, p =>
    match e with
    | GoExpr.keyValue k v =>
      let key := identOf k
      if key = [] then Except.error DecorErr.invalidParamName
      else
        match v with
        | GoExpr.basicLit _ _ | GoExpr.unary _ _ =>
          match realBasicLit v with
          | none => Except.error (DecorErr.invalidParamsValue key)
          | some (_, val) =>
            match mapVput p key val with
            | none => Except.error (DecorErr.dupKey key)
            | some p' => decorStmtListToMap rest p'
        | GoExpr.identE nm =>
          if nm ≠ "true".data && nm ≠ "false".data then
            Except.error DecorErr.shouldBeBool
          else
            match mapVput p key nm with
            | none => Except.error (DecorErr.dupKey key)
            | some p' => decorStmtListToMap rest p'
        | _ => Except.error DecorErr.invalidParamValue
    | _ => Except.error DecorErr.invalidP

/-- The call-name part of a directive: `parser.ParseExpr` on it must yield an
identifier or selector chain, which the printer renders back as the dotted
path. -/
def parseCallName (s : Chars) : Option Chars :=
  let t := trimSpace s
  if (splitOnChar '.' t).all isGoIdent then some t else none

/-- Go's `parseDecorAndParameters`: splits `name#{params}` at the first `#`,
validates the name, and parses the optional brace-delimited parameter block.
The Go function also returns partial results beside the error; only the
error/success outcome is modelled. -/
def parseDecorAndParameters (s : Chars) : Except DecorErr (Chars × List (Chars × Chars)) :=
  if s = [] then Except.error DecorErr.lossFunc
  else
    let cut := goCutHash s
    match parseCallName cut.1 with
    | none => Except.error DecorErr.syntaxErr
    | some callName =>
      if callName = [] then Except.error DecorErr.lossFunc
      else
        let pStr := trimSpace cut.2.1
        if pStr = [] then
          if ['#'].isSuffixOf s then Except.error DecorErr.syntaxErr
          else Except.ok (callName, [])
        else if pStr.head? ≠ some lbC || pStr.getLast? ≠ some rbC then
          Except.error DecorErr.syntaxErr
        else if pStr.length = 2 then Except.ok (callName, [])
        else if pStr.length < 5 then Except.error DecorErr.syntaxErr
        else
          match parseDecorParameterStringToExprList pStr with
          | Except.error e => Except.error e
          | Except.ok elts =>
            match decorStmtListToMap elts [] with
            | Except.error e => Except.error e
            | Except.ok m => Except.ok (callName, m)

/-! ### Lint rules (`transformer.go`) -/

/-- Go's `types.BasicInfo` values the engine distinguishes. -/
inductive BasicInfo where
  | isBoolean
  | isInteger
  | isFloat
  | isString
  | isUntyped
  deriving DecidableEq, Repr

/-- Go's `decorOptionParamTypeMap`, including the source's misspelled entries
(`in16`, `unit`, `unit8`, ...), which are faithful to the code. -/
def decorOptionParamTypeMap (t : Chars) : Option BasicInfo :=
  if t = "bool".data then some BasicInfo.isBoolean
  else if t = "int".data || t = "int8".data || t = "in16".data || t = "int32".data
      || t = "int64".data || t = "unit".data || t = "unit8".data || t = "unit16".data
      || t = "unit32".data || t = "unit64".data then some BasicInfo.isInteger
  else if t = "float32".data || t = "float64".data then some BasicInfo.isFloat
  else if t = "string".data then some BasicInfo.isString
  else none

/-- Go's `requiredLinter`: optional comparison bounds keyed by operator and an
optional enumeration of allowed literal texts (`nil` slices are `none`). -/
structure requiredLinter where
  compare : Option (List (Chars × Rat))
  enum : Option (List Chars)
  deriving DecidableEq, Repr

/-- Go's `decorArg`: one declared decorator parameter. -/
structure decorArg where
  index : Nat
  name : Chars
  typ : Chars
  required : Option requiredLinter
  nonzero : Bool
  deriving DecidableEq, Repr

/-- Go's `decorArg.typeKind`. -/
def typeKind (d : decorArg) : BasicInfo :=
  (decorOptionParamTypeMap d.typ).getD BasicInfo.isUntyped

/-- Go's `requiredLinter.inEnum`: a `nil` enum accepts everything. -/
def inEnum (r : requiredLinter) (value : Chars) : Bool :=
  match r.enum with
  | none => true
  | some l => l.contains value

/-- The errors of `checker.go`/`transformer.go` lint processing. -/
inductive LintErr where
  /-- Go's `errLintSyntaxError`. -/
  | lintSyntaxError
  /-- Go's `msgLintArgsNotFound + name`. -/
  | argsNotFound (name : Chars)
  /-- Go's `msgLintTypeNotMatch` (enum literal kind vs. declared type). -/
  | typeNotMatch (name : Chars) (typ : Chars) (kind : LitKind)
  /-- Go's `"lint required key '<k>' value must be true or false, but got <v>"`. -/
  | mustBeTrueFalse (name got : Chars)
  /-- Go's `"lint required key '<k>' can't use <op> compare"` (boolean type). -/
  | boolCantCompare (name key : Chars)
  /-- Go's `"lint required key '<k>' not allow <op>"`. -/
  | keyNotAllow (name key : Chars)
  /-- Go's `"lint required key '<k>' compare <op> must be int or float, ..."`. -/
  | compareMustBeNum (name key : Chars) (kind : LitKind)
  /-- Go's `"... canot be convert to float ..."`. -/
  | compareConvertFail (name key value : Chars)
  /-- Go's `"invalid linter: <s>"`. -/
  | invalidLinter (s : Chars)
  deriving DecidableEq, Repr

/-- Errors surfaced by `checkDecorAndGetParam` and the per-value lint
checks. -/
inductive CheckErr where
  /-- Go's `msgDecorPkgNotFound`. -/
  | decorPkgNotFound
  /-- Go's `"used decor is not a decorator function"` (no parameters, or the
  index-0 parameter is not the context type). -/
  | notDecoratorFunc
  /-- A lint annotation failed to parse/attach; carries the position of the
  offending annotation comment (`linterCheckError`). -/
  | linterCheck (e : LintErr) (pos : Nat)
  /-- Go's `"lint: key '<k>' can't pass nonzero lint, must have value"`. -/
  | nonzeroMissing (name : Chars)
  /-- Go's `"lint: key '<k>' value '<v>' can't pass nonzero lint"`. -/
  | nonzeroLintFail (name value : Chars)
  /-- Go's `"lint: key '<k>' value '<v>' can't pass lint enum"`. -/
  | enumLintFail (name value : Chars)
  /-- Go's `"lint: key '<k>' value '<v>' can't pass lint <op>:<bound>"`. -/
  | compareLintFail (name value key : Chars) (bound : Rat)
  /-- Go's `"unsupported types '<t>'"`. -/
  | unsupportedTypes (typ : Chars)
  deriving DecidableEq, Repr

/-- The comparison step of `passRequiredLint` for one declared bound. -/
def compareHolds (val : Rat) (c : Chars) (v : Rat) : Bool :=
  if c = "gt".data then val > v
  else if c = "gte".data then val ≥ v
  else if c = "lt".data then val < v
  else if c = "lte".data then val ≤ v
  else true

/-- Go's `decorArg.passRequiredLint`: enum membership, then every declared
comparison bound; a string value is compared via its length minus the two
surrounding quotes, numeric values via `ParseFloat` (errors ignored, yielding
`0`). -/
def passRequiredLint (d : decorArg) (value : Chars) : Except CheckErr Unit :=
  match d.required with
  | none => Except.ok ()
  | some r =>
    if ¬ inEnum r value then Except.error (CheckErr.enumLintFail d.name value)
    else
      match r.compare with
      | none => Except.ok ()
      | some bounds =>
        let val : Rat :=
          if typeKind d = BasicInfo.isString then ((value.length : Int) - 2 : Int)
          else goParseFloatD value
        match bounds.find? (fun b => ¬ compareHolds val b.1 b.2) with
        | some b => Except.error (CheckErr.compareLintFail d.name value b.1 b.2)
        | none => Except.ok ()

/-- The `isZero` closure inside `passNonzeroLint`: whether a supplied literal
text is the zero form of the parameter's type. -/
def valueIsZero (d : decorArg) (value : Chars) : Bool :=
  match typeKind d with
  | BasicInfo.isInteger | BasicInfo.isFloat => goParseFloatD value = 0
  | BasicInfo.isString => value = "\"\"".data
  | BasicInfo.isBoolean => value = "false".data
  | BasicInfo.isUntyped => false

/-- Go's `decorArg.passNonzeroLint`. -/
def passNonzeroLint (d : decorArg) (value : Chars) : Except CheckErr Unit :=
  if d.nonzero && valueIsZero d value then
    Except.error (CheckErr.nonzeroLintFail d.name value)
  else Except.ok ()

/-! ### Attaching lint rules to decorator parameters (`checker.go`) -/

/-- Go's `decorArgsMap` is a map from parameter name to a mutable `*decorArg`; it
is embedded as the list of `decorArg`s in declaration (index) order, looked up
by name. -/
abbrev decorArgsMap := List decorArg

/-- Map lookup (`args[name]`). -/
def argsGet (args : decorArgsMap) (name : Chars) : Option decorArg :=
  args.find? (fun a => a.name = name)

/-- In-place mutation of the `decorArg` the map points to for `name`. -/
def argsUpdate (args : decorArgsMap) (name : Chars) (f : decorArg → decorArg) :
    decorArgsMap :=
  args.map (fun a => if a.name = name then f a else a)

/-- Go's `initRequiredLinter`: allocate the `required` rule if absent. -/
def initRequiredLinter (d : decorArg) : decorArg :=
  match d.required with
  | some _ => d
  | none => { d with required := some { compare := none, enum := none } }

/-- Append one literal text to the enum (allocating the `nil` slice first,
as the source does). -/
def pushEnum (d : decorArg) (v : Chars) : decorArg :=
  let d := initRequiredLinter d
  match d.required with
  | none => d
  | some r =>
    { d with required := some { r with enum := some ((r.enum.getD []) ++ [v]) } }

/-- Go's `requiredLinter.initCompare` followed by `compare[key] = v`
(map-assignment semantics: overwrite an existing key). -/
def putCompare (d : decorArg) (key : Chars) (v : Rat) : decorArg :=
  let d := initRequiredLinter d
  match d.required with
  | none => d
  | some r =>
    let m := r.compare.getD []
    let m' :=
      if (m.find? (fun p => p.1 = key)).isSome then
        m.map (fun p => if p.1 = key then (key, v) else p)
      else m ++ [(key, v)]
    { d with required := some { r with compare := some m' } }

/-- Go's `lintRequiredRangeAllowKeyMap` membership. -/
def lintRangeKeyAllowed (k : Chars) : Bool :=
  k = "gt".data || k = "gte".data || k = "lt".data || k = "lte".data

/-- One element of a `required: {a: {...}}` brace list, mutating the rule of
`dpt`.  Mirrors the inner `switch` of `obtainRequiredLinter`. -/
def obtainRequiredElem (dpt : decorArg) (lit : GoExpr) : Except LintErr decorArg :=
  match lit with
  | GoExpr.basicLit _ _ | GoExpr.unary _ _ =>
    match realBasicLit lit with
    | none => Except.error LintErr.lintSyntaxError
    | some (k, v) =>
      if (k = LitKind.strK && typeKind dpt ≠ BasicInfo.isString)
          || (k = LitKind.intK && typeKind dpt ≠ BasicInfo.isInteger)
          || (k = LitKind.floatK && typeKind dpt ≠ BasicInfo.isFloat) then
        Except.error (LintErr.typeNotMatch dpt.name dpt.typ k)
      else Except.ok (pushEnum dpt v)
  | GoExpr.identE nm =>
    if nm ≠ "true".data && nm ≠ "false".data then
      Except.error (LintErr.mustBeTrueFalse dpt.name nm)
    else Except.ok (pushEnum dpt nm)
  | GoExpr.keyValue k v =>
    match k with
    | GoExpr.identE key =>
      if typeKind dpt = BasicInfo.isBoolean then
        Except.error (LintErr.boolCantCompare dpt.name key)
      else if ¬ lintRangeKeyAllowed key then
        Except.error (LintErr.keyNotAllow dpt.name key)
      else
        match realBasicLit v with
        | none => Except.error LintErr.lintSyntaxError
        | some (vk, vv) =>
          if vk ≠ LitKind.floatK && vk ≠ LitKind.intK then
            Except.error (LintErr.compareMustBeNum dpt.name key vk)
          else
            match goParseFloat vv with
            | none => Except.error (LintErr.compareConvertFail dpt.name key vv)
            | some f => Except.ok (putCompare dpt key f)
    | _ => Except.error LintErr.lintSyntaxError
  | _ => Except.error LintErr.lintSyntaxError

/-- Fold of `obtainRequiredElem` over a brace list. -/
def obtainRequiredElems (dpt : decorArg) : List GoExpr → Except LintErr decorArg
  | [] => Except.ok dpt
  | e :: rest =>
    match obtainRequiredElem dpt e with
    | Except.error err => Except.error err
    | Except.ok dpt' => obtainRequiredElems dpt' rest

/-- Go's `obtainRequiredLinter`: one entry of a `required: {...}` annotation.  The
source mutates the pointed-to `decorArg`; here the updated map is returned
(on error the whole compilation aborts, so partial mutations are never
observed). -/
def obtainRequiredLinter (v : GoExpr) (args : decorArgsMap) :
    Except LintErr decorArgsMap :=
  match v with
  | GoExpr.identE nm =>
    match argsGet args nm with
    | none => Except.error (LintErr.argsNotFound nm)
    | some _ => Except.ok (argsUpdate args nm initRequiredLinter)
  | GoExpr.keyValue k v =>
    match k with
    | GoExpr.identE nm =>
      match argsGet args nm with
      | none => Except.error (LintErr.argsNotFound nm)
      | some dpt =>
        match v with
        | GoExpr.composite elts =>
          match obtainRequiredElems dpt elts with
          | Except.error err => Except.error err
          | Except.ok dpt' => Except.ok (argsUpdate args nm (fun _ => dpt'))
        | _ => Except.error LintErr.lintSyntaxError
    | _ => Except.error LintErr.lintSyntaxError
  | _ => Except.error LintErr.lintSyntaxError

/-- Go's `obtainNonzeroLinter`: a bare parameter name marks it required-nonzero. -/
def obtainNonzeroLinter (v : GoExpr) (args : decorArgsMap) :
    Except LintErr decorArgsMap :=
  match v with
  | GoExpr.identE nm =>
    match argsGet args nm with
    | none => Except.error (LintErr.argsNotFound nm)
    | some _ => Except.ok (argsUpdate args nm (fun a => { a with nonzero := true }))
  | _ => Except.error LintErr.lintSyntaxError

/-- Fold an obtain-step over an expression list. -/
def obtainAll (step : GoExpr → decorArgsMap → Except LintErr decorArgsMap) :
    List GoExpr → decorArgsMap → Except LintErr decorArgsMap
  | [], args => Except.ok args
  | e :: rest, args =>
    match step e args with
    | Except.error err => Except.error err
    | Except.ok args' => obtainAll step rest args'

/-- Go's `resolveLinterFromAnnotation` (the text after the lint prefix): dispatches
on `required: ` / `nonzero: ` and trims the keyword with Go's cutset
`TrimLeft` before handing the brace list to the expression parser. -/
def resolveLinterText (s : Chars) (args : decorArgsMap) :
    Except LintErr decorArgsMap :=
  if "required: ".data.isPrefixOf s then
    match parseDecorParameterStringToExprList (goTrimLeftCutset s "required: ".data) with
    | Except.error _ => Except.error LintErr.lintSyntaxError
    | Except.ok elts => obtainAll obtainRequiredLinter elts args
  else if "nonzero: ".data.isPrefixOf s then
    match parseDecorParameterStringToExprList (goTrimLeftCutset s "nonzero: ".data) with
    | Except.error _ => Except.error LintErr.lintSyntaxError
    | Except.ok elts => obtainAll obtainNonzeroLinter elts args
  else Except.error (LintErr.invalidLinter s)

/-- One comment of a doc group: its text and its source position (an
`ast.Comment` with `token.Pos` abstracted to `Nat`). -/
structure DecorComment where
  text : Chars
  pos : Nat
  deriving DecidableEq, Repr

/-- Modelled from the spec: the lint annotation prefix (`<lint-prefix>` of the
spec's lint annotation syntax).  The constant `decorLintScanFlag` is consumed
by `checker.go` but its defining file is not among the provided sources; the
lint logic only tests and strips this prefix, so its exact text does not
affect any behaviour proved here. -/
def decorLintScanFlag : Chars := "//go:decor-lint ".data

/-- Go's `linterCheckError`: a lint error plus the offending comment's position. -/
structure LinterCheckError where
  err : LintErr
  pos : Nat
  deriving DecidableEq, Repr

/-- Go's `parseLinterFromDocGroup`: scans the decorator's doc comments from the
last line upward, processing consecutive lint-prefixed lines and stopping at
the first line without the prefix. -/
def parseLinterRev : List DecorComment → decorArgsMap →
    Except LinterCheckError decorArgsMap
  | [], args => Except.ok args
  | c :: rest, args =>
    if decorLintScanFlag.isPrefixOf c.text then
      match resolveLinterText (c.text.drop decorLintScanFlag.length) args with
      | Except.error e => Except.error { err := e, pos := c.pos }
      | Except.ok args' => parseLinterRev rest args'
    else Except.ok args

/-- Go's `parseLinterFromDocGroup` over a doc group in source order. -/
def parseLinterFromDocGroup (doc : List DecorComment) (args : decorArgsMap) :
    Except LinterCheckError decorArgsMap :=
  parseLinterRev doc.reverse args

/-! ### Collecting a declaration's parameters and checking a directive
(`checker.go`) -/

/-- One `ast.Field` of a parameter/result list: the declared names (empty for
an unnamed field) and the printed form of the type expression. -/
structure GoField where
  names : List Chars
  typ : Chars
  deriving DecidableEq, Repr

/-- Go's `typeString`: the printed type with a variadic `...` prefix rewritten to a
slice. -/
def typeStringOf (t : Chars) : Chars :=
  if "...".data.isPrefixOf t then "[]".data ++ t.drop 3 else t

/-- Go's `collDeclFuncParamsAnfTypes`: parameter names with their positional index
and printed type, in declaration order (each name of a multi-name field gets
its own index; unnamed fields contribute nothing). -/
def collDeclFuncParamsAnfTypes (fields : List GoField) : decorArgsMap :=
  let step := fun (acc : decorArgsMap × Nat) (f : GoField) =>
    f.names.foldl
      (fun (acc : decorArgsMap × Nat) nm =>
        (acc.1 ++ [{ index := acc.2, name := nm, typ := typeStringOf f.typ,
                     required := none, nonzero := false }], acc.2 + 1))
      acc
  (fields.foldl step ([], 0)).1

/-- The body of `checkDecorAndGetParam`'s per-parameter loop: validate a
supplied value, or produce the type's default (or an error) for an omitted
one. -/
def checkOneParam (v : decorArg) (annot : List (Chars × Chars)) :
    Except CheckErr Chars :=
  match assocGet annot v.name with
  | some value =>
    match passNonzeroLint v value with
    | Except.error e => Except.error e
    | Except.ok _ =>
      match passRequiredLint v value with
      | Except.error e => Except.error e
      | Except.ok _ => Except.ok value
  | none =>
    if v.nonzero then Except.error (CheckErr.nonzeroMissing v.name)
    else
      match typeKind v with
      | BasicInfo.isInteger => Except.ok "0".data
      | BasicInfo.isFloat => Except.ok "0.0".data
      | BasicInfo.isString => Except.ok "\"\"".data
      | BasicInfo.isBoolean => Except.ok "false".data
      | BasicInfo.isUntyped => Except.error (CheckErr.unsupportedTypes v.typ)

/-- The loop of `checkDecorAndGetParam` over every parameter except index 0,
producing the positional argument texts `params[1:]`. -/
def checkParams : decorArgsMap → List (Chars × Chars) → Except CheckErr (List Chars)
  | [], _ => Except.ok []
  | v :: rest, annot =>
    if v.index = 0 then checkParams rest annot
    else
      match checkOneParam v annot with
      | Except.error e => Except.error e
      | Except.ok value =>
        match checkParams rest annot with
        | Except.error e => Except.error e
        | Except.ok vals => Except.ok (value :: vals)

/-- The decorator support package path (`decoratorPackagePath`). -/
def decoratorPackagePath : Chars := "github.com/dengsgo/go-decorator/decor".data

/-- The printed context-parameter type `*<pkgName>.Context`. -/
def contextTypePat (pkgName : Chars) : Chars :=
  '*' :: pkgName ++ ".Context".data

/-! ### The import table (`transformer.go`) -/

/-- Go's `filepath.Base` (for slash-separated import paths): strip trailing
slashes, then keep everything after the last remaining slash.  Implemented on
the reversed string: drop leading (reversed-trailing) slashes, take up to the
next slash, and reverse back. -/
def goBase (p : Chars) : Chars :=
  if p = [] then ['.']
  else
    let dropped := p.reverse.dropWhile (· = '/')
    if dropped = [] then ['/']
    else (dropped.takeWhile (fun ch => ch ≠ '/')).reverse

/-- Go's `filepath.Ext`: the suffix starting at the final dot of the final path
element, empty if there is none. -/
def goExtRev : Chars → Chars → Chars
  | [], _ => []
  | c :: rest, acc =>
    if c = '/' then []
    else if c = '.' then c :: acc
    else goExtRev rest (c :: acc)

/-- Go's `filepath.Ext` on the original string. -/
def goExt (p : Chars) : Chars := goExtRev p.reverse []

/-- One `ast.ImportSpec`: optional explicit name and the unquoted path. -/
structure ImportSpecM where
  name : Option Chars
  path : Chars
  deriving DecidableEq, Repr

/-- The major-version test of `newImporter`: the segment starts with `v` and
its text after cutset-trimming the `v`s parses (`Atoi`) to an integer
greater than 1. -/
def isMajorVersionSeg (s : Chars) : Bool :=
  "v".data.isPrefixOf s &&
    (match goAtoi (goTrimLeftCutset s "v".data) with
     | some v => v > 1
     | none => false)

/-- The name a plain import derives from its path: the path's base with its
extension cutset-trimmed away, then — when the result is a `v<major>` segment
with major greater than 1 — the second-to-last path segment instead.  (The
index `arr[len(arr)-2]` is guarded by `len(arr) > 1` and thus always in
bounds; the unreachable out-of-bounds case is given the default
`extName`.) -/
def extNameOf (pkg : Chars) : Chars :=
  let extName := goTrimRightCutset (goBase pkg) (goExt pkg)
  if isMajorVersionSeg extName then
    let arr := splitOnChar '/' pkg
    if arr.length > 1 then (arr[arr.length - 2]?).getD extName
    else extName
  else extName

/-- The local binding name `newImporter` derives for one import spec. -/
def importEntryName (ip : ImportSpecM) : Chars :=
  let extName := extNameOf ip.path
  match ip.name with
  | none => extName
  | some nm =>
    if nm = [] then extName
    else if nm = "_".data then extName
    else if nm = ".".data then extName
    else nm

/-- Association-list write with Go map overwrite semantics. -/
def assocPut (m : List (Chars × Chars)) (k v : Chars) : List (Chars × Chars) :=
  if (assocGet m k).isSome then m.map (fun p => if p.1 = k then (k, v) else p)
  else m ++ [(k, v)]

/-- The per-file import table: local name → path and path → declared name. -/
structure Importer where
  nameMap : List (Chars × Chars)
  pathMap : List (Chars × Chars)
  deriving DecidableEq, Repr

/-- Go's `newImporter`: builds both maps; `pathMap` records the literal spec name
(`_`, `.`, or the alias) when one is present, the derived name otherwise. -/
def newImporter (specs : List ImportSpecM) : Importer :=
  specs.foldl
    (fun imp ip =>
      let name := importEntryName ip
      { nameMap := assocPut imp.nameMap name ip.path,
        pathMap := assocPut imp.pathMap ip.path (ip.name.getD name) })
    { nameMap := [], pathMap := [] }

/-- Go's `importer.importedName`. -/
def importedName (i : Importer) (name : Chars) : Option Chars :=
  assocGet i.nameMap name

/-- Go's `importer.importedPath`. -/
def importedPath (i : Importer) (pkg : Chars) : Option Chars :=
  assocGet i.pathMap pkg

/-! ### `checkDecorAndGetParam` (`checker.go`) -/

/-- Go's `checkDecorAndGetParam`, with the located decorator declaration passed in
(the package loader's file lookup is outside the engine): requires the
decorator support path to be imported in the decorator's file, requires the
index-0 parameter to be `*<name>.Context`, attaches the declaration's lint
annotations, and validates/defaults every supplied directive parameter. -/
def checkDecorAndGetParam (imp : Importer) (declParams : List GoField)
    (declDoc : List DecorComment) (annot : List (Chars × Chars)) :
    Except CheckErr (List Chars) :=
  match importedPath imp decoratorPackagePath with
  | none => Except.error CheckErr.decorPkgNotFound
  | some pkgName =>
    let m := collDeclFuncParamsAnfTypes declParams
    if m.length < 1 then Except.error CheckErr.notDecoratorFunc
    else if m.any (fun v => v.index = 0 && v.typ ≠ contextTypePat pkgName) then
      Except.error CheckErr.notDecoratorFunc
    else if m.length = 1 then Except.ok []
    else
      match parseLinterFromDocGroup declDoc m with
      | Except.error e => Except.error (CheckErr.linterCheck e.err e.pos)
      | Except.ok m' => checkParams m' annot

/-! ### Function declarations and the directive scanner (`compile.go`) -/

/-- Go's `decoratorScanFlag`. -/
def decoratorScanFlag : Chars := "//go:decor ".data

/-- The receiver-type expressions `identName` in `compile.go` understands:
plain identifier, generic instantiations (`ast.IndexExpr` /
`ast.IndexListExpr`), pointers to those, and anything else. -/
inductive RExpr where
  | id (n : Chars)
  | indexE (x : RExpr)
  | indexList (x : RExpr)
  | star (x : RExpr)
  | other
  deriving DecidableEq, Repr

/-- The `identName` closure of `typeDecorRebuild`: the receiver's base type
name, or `""` for unsupported shapes. -/
def identName : RExpr → Chars
  | RExpr.id n => n
  | RExpr.indexList x =>
    match x with
    | RExpr.id n => n
    | _ => []
  | RExpr.indexE x =>
    match x with
    | RExpr.id n => n
    | _ => []
  | RExpr.star x =>
    match x with
    | RExpr.id n => n
    | RExpr.indexE y =>
      match y with
      | RExpr.id n => n
      | _ => []
    | RExpr.indexList y =>
      match y with
      | RExpr.id n => n
      | _ => []
    | _ => []
  | RExpr.other => []

/-- A method receiver: its binding name and its type expression. -/
structure RecvM where
  varName : Chars
  typExpr : RExpr
  deriving DecidableEq, Repr

/-- One `ast.FuncDecl` as the engine reads it: doc comments, optional
receiver, parameter and result fields (types in printed form). -/
structure FuncDeclM where
  name : Chars
  recv : Option RecvM
  params : List GoField
  results : List GoField
  doc : List DecorComment
  deriving DecidableEq, Repr

/-- Go's `ast.FieldList.NumFields`: total declared names, counting an unnamed
field as one. -/
def numFields (fs : List GoField) : Nat :=
  fs.foldl (fun n f => n + (if f.names.length = 0 then 1 else f.names.length)) 0

/-- Go's `funIsDecorator` (`lib.go`): no receiver, exactly one parameter, and the
parameter's printed type is `*<pkgName>.Context`. -/
def funIsDecorator (fd : FuncDeclM) (pkgName : Chars) : Bool :=
  if pkgName = [] then false
  else if fd.recv.isSome then false
  else if numFields fd.params ≠ 1 then false
  else
    match fd.params.head? with
    | none => false
    | some f0 => trimSpace f0.typ = contextTypePat pkgName

/-- Fatal errors of the per-directive steps in `compile` (each is a
`logs.Error`, which terminates the process). -/
inductive CompileErr where
  /-- Go's `msgDecorPkgNotImported`. -/
  | decorPkgNotImported
  /-- Go's `msgCantUsedOnDecoratorFunc`. -/
  | cantUsedOnDecoratorFunc
  deriving DecidableEq, Repr

/-- The decorator-support alias resolution at the head of the per-directive
loop (`compile.go` lines 176–188): fails when the support package is not
imported; a blank `_` import is force-promoted to the usable alias `decor`
(rewriting the import table). -/
def resolveDecorAlias (imp : Importer) : Except CompileErr (Chars × Importer) :=
  match importedPath imp decoratorPackagePath with
  | none => Except.error CompileErr.decorPkgNotImported
  | some n =>
    if n = "_".data then
      Except.ok ("decor".data,
        { imp with pathMap := assocPut imp.pathMap decoratorPackagePath "decor".data })
    else Except.ok (n, imp)

/-- Lines 176–193 of `compile.go`: resolve the support alias, then reject the
target if it is itself a decorator function. -/
def directiveSelfCheck (fd : FuncDeclM) (imp : Importer) :
    Except CompileErr (Chars × Importer) :=
  match resolveDecorAlias imp with
  | Except.error e => Except.error e
  | Except.ok (pkgDecorName, imp') =>
    if funIsDecorator fd pkgDecorName then
      Except.error CompileErr.cantUsedOnDecoratorFunc
    else Except.ok (pkgDecorName, imp')

/-! ### Scanning a target's directives and the chain-weaving order
(`compile.go`, lines 119–270) -/

/-- One recognized directive on a target (`decorAnnotation`): position of its
comment, decorator name, and parameter map. -/
structure decorAnnot where
  docPos : Nat
  name : Chars
  params : List (Chars × Chars)
  deriving DecidableEq, Repr

/-- Fatal errors of the directive scan. -/
inductive ScanErr where
  /-- A directive payload failed to parse (reported at the comment). -/
  | parseErr (e : DecorErr) (pos : Nat)
  /-- Go's `"cannot use the same decorator for repeated decoration"`, with the
  positions of the two occurrences. -/
  | dupDecor (name : Chars) (pos repeatedPos : Nat)
  deriving DecidableEq, Repr

/-- The scan loop of `compile` over a function's doc comments, which walks
from the *last* line upward, stops at the first line without the directive
prefix, parses each payload and rejects duplicate decorator names.  The input
here is the already-reversed doc list; the produced list is therefore in
bottom-up discovery order, exactly as `collDecors` is built. -/
def scanDecorsRev : List DecorComment → List (Chars × Nat) →
    Except ScanErr (List decorAnnot)
  | [], _ => Except.ok []
  | d :: rest, seen =>
    if decoratorScanFlag.isPrefixOf d.text then
      match parseDecorAndParameters (d.text.drop decoratorScanFlag.length) with
      | Except.error e => Except.error (ScanErr.parseErr e d.pos)
      | Except.ok (nm, ps) =>
        match (seen.find? (fun p => p.1 = nm)).map (·.2) with
        | some p0 => Except.error (ScanErr.dupDecor nm d.pos p0)
        | none =>
          match scanDecorsRev rest ((nm, d.pos) :: seen) with
          | Except.error e => Except.error e
          | Except.ok annots =>
            Except.ok ({ docPos := d.pos, name := nm, params := ps } :: annots)
    else Except.ok []

/-- Go's `collDecors` for one target: the directives in the order the application
loop receives them (bottom-up discovery order; `compile` performs no
reversal before the chain loop). -/
def collDecorAnnots (doc : List DecorComment) : Except ScanErr (List decorAnnot) :=
  scanDecorsRev doc.reverse []

/-- The nesting structure produced by the chain loop: each iteration replaces
`fd.Body.List` with generated statements whose inner closure body is the
*previous* `fd.Body.List`, so applying a directive wraps the current body. -/
inductive WovenBody where
  | original
  | wrapped (decorName : Chars) (inner : WovenBody)
  deriving DecidableEq, Repr

/-- The innermost decorator of a woven body (the one whose generated closure
directly contains the original statements), if any. -/
def innermostDecor : WovenBody → Option Chars
  | WovenBody.original => none
  | WovenBody.wrapped d WovenBody.original => some d
  | WovenBody.wrapped _ inner => innermostDecor inner

/-- The chain loop `for _, da := range collDecors` of `compile`: each
directive in turn wraps the body produced so far. -/
def weaveChain (annots : List decorAnnot) : WovenBody :=
  annots.foldl (fun b a => WovenBody.wrapped a.name b) WovenBody.original

/-- Scan a target's doc comments and weave the full directive chain. -/
def weaveTarget (doc : List DecorComment) : Except ScanErr WovenBody :=
  match collDecorAnnots doc with
  | Except.error e => Except.error e
  | Except.ok annots => Except.ok (weaveChain annots)

/-! ### Type-level directive propagation (`typeDecorRebuild`, `compile.go`) -/

/-- Go's `reverseSlice`. -/
def reverseSlice (l : List α) : List α := l.reverse

/-- Bottom-up collection of consecutive directive-prefixed comments, stopping
at the first non-matching line (input already reversed). -/
def collectDecorRev : List DecorComment → List DecorComment
  | [] => []
  | d :: rest =>
    if decoratorScanFlag.isPrefixOf d.text then d :: collectDecorRev rest else []

/-- Go's `findAndCollDecorComments`: the trailing contiguous directive comments of
a comment group, restored to source order. -/
def findAndCollDecorComments (cg : List DecorComment) : List DecorComment :=
  reverseSlice (collectDecorRev cg.reverse)

/-- One `ast.TypeSpec` with the two comment groups `typeDecorRebuild`
inspects: the spec's own doc and the enclosing `ast.GenDecl`'s doc. -/
structure TypeSpecM where
  name : Chars
  namePos : Nat
  specDoc : List DecorComment
  genDoc : List DecorComment
  deriving DecidableEq, Repr

/-- One source file of the package: its type declarations and its function
declarations. -/
structure FileM where
  types : List TypeSpecM
  funcs : List FuncDeclM
  deriving DecidableEq, Repr

/-- The directive comments contributed by one type declaration: trailing
directives of the spec doc, then of the enclosing declaration's doc. -/
def typeComments (ts : TypeSpecM) : List DecorComment :=
  findAndCollDecorComments ts.specDoc ++ findAndCollDecorComments ts.genDoc

/-- Phase 1 of `typeDecorRebuild` over one file's type specs: register each
directive-carrying type name, recording a duplicate-definition error (with
the second declaration's name position) when the name is already present. -/
def phase1Types : List TypeSpecM → List (Chars × List DecorComment) →
    List (Nat × Chars) → List (Chars × List DecorComment) × List (Nat × Chars)
  | [], m, errs => (m, errs)
  | t :: rest, m, errs =>
    let cs := typeComments t
    if cs.isEmpty then phase1Types rest m errs
    else if (m.find? (fun e => e.1 = t.name)).isSome then
      phase1Types rest m (errs ++ [(t.namePos, t.name)])
    else phase1Types rest (m ++ [(t.name, cs)]) errs

/-- Phase 1 over the package's files; after each file the error list is
checked and the first error returned (`duplicate type definition`). -/
def phase1Files : List FileM → List (Chars × List DecorComment) →
    Except (Nat × Chars) (List (Chars × List DecorComment))
  | [], m => Except.ok m
  | f :: rest, m =>
    match phase1Types f.types m [] with
    | (m', []) => phase1Files rest m'
    | (_, e :: _) => Except.error e

/-- Phase 2 on one function declaration: when it is a method whose receiver
base type name is registered, the collected directive comments are appended
to its doc group (created if absent). -/
def propagateToFunc (m : List (Chars × List DecorComment)) (fd : FuncDeclM) :
    FuncDeclM :=
  match fd.recv with
  | none => fd
  | some rx =>
    let tn := identName rx.typExpr
    if tn = [] then fd
    else
      match m.find? (fun e => e.1 = tn) with
      | none => fd
      | some e =>
        if e.2.isEmpty then fd else { fd with doc := fd.doc ++ e.2 }

/-- Go's `typeDecorRebuild`: collect type-level directives (erroring on duplicate
directive-carrying type names), then copy them onto every method of the
matching receiver types.  Runs before the per-function scan of `compile`. -/
def typeDecorRebuild (files : List FileM) : Except (Nat × Chars) (List FileM) :=
  match phase1Files files [] with
  | Except.error e => Except.error e
  | Except.ok m =>
    if m.isEmpty then Except.ok files
    else
      Except.ok (files.map (fun f => { f with funcs := f.funcs.map (propagateToFunc m) }))

/-! ### Building the replacement descriptor (`builderReplaceArgs`, `lib.go`) -/

/-- Go's `genIdentId`: the per-target generator of synthesized identifiers. -/
structure GenIdentId where
  id : Nat
  ident : Chars
  deriving DecidableEq, Repr

/-- Go's `genIdentId.nextStr`. -/
def nextStr (g : GenIdentId) : Chars × GenIdentId :=
  (g.ident ++ (Nat.repr (g.id + 1)).data, { g with id := g.id + 1 })

/-- Go's `newGenIdentId`, with the random 6-character suffix passed in. -/
def newGenIdentId (suf : Chars) : GenIdentId :=
  { id := 0, ident := "_decorGenIdent".data ++ suf }

/-- The first result loop of `builderReplaceArgs`: a result field with no
names receives one synthesized name. -/
def fixResultNames : List GoField → GenIdentId → List GoField × GenIdentId
  | [], g => ([], g)
  | f :: rest, g =>
    if f.names.isEmpty then
      let (nm, g') := nextStr g
      let (rs, g'') := fixResultNames rest g'
      ({ names := [nm], typ := f.typ } :: rs, g'')
    else
      let (rs, g') := fixResultNames rest g
      (f :: rs, g')

/-- Per-field name walk shared by the second result loop and the parameter
loop: a `_` name is replaced by a fresh identifier, and every name is paired
with the field's `typeString`. -/
def collectFieldNames (typ : Chars) : List Chars → GenIdentId →
    List (Chars × Chars) × GenIdentId
  | [], g => ([], g)
  | nm :: rest, g =>
    let (nm', g') := if nm = "_".data then nextStr g else (nm, g)
    let (pairs, g'') := collectFieldNames typ rest g'
    ((nm', typeStringOf typ) :: pairs, g'')

/-- The collection loop over a field list (results after renaming, or
parameters): fields with no names are skipped. -/
def collectArgs : List GoField → GenIdentId → List (Chars × Chars) × GenIdentId
  | [], g => ([], g)
  | f :: rest, g =>
    if f.names.length = 0 then collectArgs rest g
    else
      let (pairs, g') := collectFieldNames f.typ f.names g
      let (pairs', g'') := collectArgs rest g'
      (pairs ++ pairs', g'')

/-- The slot-relevant fields of `ReplaceArgs`. -/
structure ReplaceArgsM where
  tKind : Chars
  receiverVarName : Chars
  inArgNames : List Chars
  inArgTypes : List Chars
  outArgNames : List Chars
  outArgTypes : List Chars
  deriving DecidableEq, Repr

/-- Go's `builderReplaceArgs`: kind/receiver, then result names (synthesizing a
name for every unnamed result field and replacing `_`), then parameter names
(replacing `_`, skipping fields that declare no names at all).  The rendered
template strings (`FuncMain`, `DecorCallIn`, ...) are derived from these same
name/type lists and are not re-modelled. -/
def builderReplaceArgs (fd : FuncDeclM) (g : GenIdentId) :
    ReplaceArgsM × GenIdentId :=
  let tKind := if fd.recv.isSome then "KMethod".data else "KFunc".data
  let recvVar :=
    match fd.recv with
    | some r => r.varName
    | none => "nil".data
  let (results', g1) := fixResultNames fd.results g
  let (outPairs, g2) := collectArgs results' g1
  let (inPairs, g3) := collectArgs fd.params g2
  ({ tKind := tKind,
     receiverVarName := recvVar,
     inArgNames := inPairs.map (·.1),
     inArgTypes := inPairs.map (·.2),
     outArgNames := outPairs.map (·.1),
     outArgTypes := outPairs.map (·.2) }, g3)

/-- A target carrying exactly the two directives `A` (first, top) and `B`
(second, bottom). -/
def exDocAB : List DecorComment :=
  [{ text := "//go:decor A".data, pos := 10 },
   { text := "//go:decor B".data, pos := 20 }]

/-- The body `compile` actually produces for `exDocAB`: `B` is applied first
and ends up innermost, `A` wraps the result. -/
def exWovenAB : WovenBody :=
  WovenBody.wrapped "A".data (WovenBody.wrapped "B".data WovenBody.original)

/-- An importer for a file with the plain import of the decorator support
package (binding name `decor`). -/
def impDecor : Importer := newImporter [{ name := none, path := decoratorPackagePath }]

/-- An importer for a file that imports the decorator support package under
the explicit alias `d` (as the file declaring a decorator may). -/
def impDeclD : Importer :=
  newImporter [{ name := some "d".data, path := decoratorPackagePath }]

/-- A decorator declaration whose sole parameter is `ctx *d.Context` — the
context type under its own file's alias `d`. -/
def declParamsOwnAlias : List GoField :=
  [{ names := ["ctx".data], typ := "*d.Context".data }]

/-- A decorator declaration whose sole parameter is `ctx *decor.Context` —
the context type under the *target* file's alias `decor`, not its own
file's alias `d`. -/
def declParamsTargetAlias : List GoField :=
  [{ names := ["ctx".data], typ := "*decor.Context".data }]

/-- Declaration parameters of a decorator `func(ctx *decor.Context, level string)`. -/
def levelDeclParams : List GoField :=
  [{ names := ["ctx".data], typ := "*decor.Context".data },
   { names := ["level".data], typ := "string".data }]

/-- Its doc comment `required: {level: {"a", "b"}}` lint annotation. -/
def levelDeclDoc : List DecorComment :=
  [{ text := decorLintScanFlag ++ "required: \x7blevel: \x7b\"a\", \"b\"\x7d\x7d".data,
     pos := 77 }]

/-- Declaration parameters of a decorator `func(ctx *decor.Context, count int)`. -/
def countDeclParams : List GoField :=
  [{ names := ["ctx".data], typ := "*decor.Context".data },
   { names := ["count".data], typ := "int".data }]

/-- Its doc comment `nonzero: {count}` lint annotation. -/
def countDeclDoc : List DecorComment :=
  [{ text := decorLintScanFlag ++ "nonzero: \x7bcount\x7d".data, pos := 5 }]

/-- The `count` parameter after the nonzero lint rule is attached. -/
def countArgNonzero : decorArg :=
  { index := 1, name := "count".data, typ := "int".data,
    required := none, nonzero := true }

/-- A type declaration of `T` carrying one directive comment. -/
def tDupWith : TypeSpecM :=
  { name := "T".data, namePos := 3,
    specDoc := [{ text := "//go:decor logging".data, pos := 1 }], genDoc := [] }

/-- A second declaration of the same type name `T` with no directive
comments. -/
def tDupWithout : TypeSpecM :=
  { name := "T".data, namePos := 9, specDoc := [], genDoc := [] }

/-- A file declaring `T` twice, only the first carrying directives. -/
def dupFile : FileM := { types := [tDupWith, tDupWithout], funcs := [] }

/-- A type declaration of `T` carrying one directive, a method on `*T`, and
a plain function, used to witness propagation. -/
def tProp : TypeSpecM :=
  { name := "T".data, namePos := 3,
    specDoc := [{ text := "//go:decor logging".data, pos := 1 }], genDoc := [] }

/-- A method with pointer receiver `s *T`. -/
def mProp : FuncDeclM :=
  { name := "M".data,
    recv := some { varName := "s".data, typExpr := RExpr.star (RExpr.id "T".data) },
    params := [], results := [], doc := [{ text := "// doc".data, pos := 2 }] }

/-- A plain function in the same file. -/
def oProp : FuncDeclM :=
  { name := "F".data, recv := none, params := [], results := [], doc := [] }

/-- A second declaration of `T` that also carries a directive. -/
def tDupBoth : TypeSpecM :=
  { name := "T".data, namePos := 9,
    specDoc := [{ text := "//go:decor tracing".data, pos := 7 }], genDoc := [] }

/-- The type-name → directive-comments map collected from `tProp`. -/
def propMap : List (Chars × List DecorComment) :=
  [("T".data, [{ text := "//go:decor logging".data, pos := 1 }])]

/-- A file with the directive-carrying type `T`, a method on `*T`, and a
plain function. -/
def propFile : FileM := { types := [tProp], funcs := [mProp, oProp] }

/-- Total number of declared names in a field list (an unnamed field
contributes nothing, unlike `numFields`). -/
def totalNames (fs : List GoField) : Nat := (fs.map (fun f => f.names.length)).sum

/-- A target function with a single fully-unnamed parameter (`func f(int)`). -/
def unnamedParamFd : FuncDeclM :=
  { name := "f".data, recv := none,
    params := [{ names := [], typ := "int".data }], results := [], doc := [] }

/-- The identifier generator with a fixed six-letter suffix. -/
def giEx : GenIdentId := newGenIdentId "abcdef".data

/-- Join of path segments with a separator character (inverse of
`splitOnChar` on separator-free segments). -/
def joinSep (c : Char) : List Chars → Chars
  | [] => []
  | [s] => s
  | s :: rest => s ++ c :: joinSep c rest

/-- The leading segments of `github.com/user/project/v3`. -/
def segsEx : List Chars := ["github.com".data, "user".data, "project".data]

/-! ## Theorems -/

/-- C2: directive payload parsing is a pure function with the stated
outcomes: `f#{a: 1, b: "x"}` yields name `f` and the ordered parameter map
`a ↦ 1`, `b ↦ "x"` (literal texts, strings keeping their quotes); `f#` (a
trailing `#` with no parameter block) is a syntax error; the empty string is
a missing-name error; `f#{}` succeeds with an empty parameter map. -/
theorem directive_payload_parsing_cases :
    parseDecorAndParameters "f#\x7ba: 1, b: \"x\"\x7d".data =
      Except.ok ("f".data, [("a".data, "1".data), ("b".data, "\"x\"".data)]) ∧
    parseDecorAndParameters "f#".data = Except.error DecorErr.syntaxErr ∧
    parseDecorAndParameters "".data = Except.error DecorErr.lossFunc ∧
    parseDecorAndParameters "f#\x7b\x7d".data = Except.ok ("f".data, []) := by
  refine ⟨?_, ?_, ?_, ?_⟩ <;> rfl

/-- C1 (counterexample): with directives `A` then `B` in source order, the
scanner collects them bottom-up — `[B, A]` — and the chain loop applies them
in that discovery order *without* reversing, so `B` (not `A`) is applied
first and is innermost; the nesting the claim requires is not produced. -/
theorem chain_order_counterexample :
    collDecorAnnots exDocAB =
      Except.ok [{ docPos := 20, name := "B".data, params := [] },
                 { docPos := 10, name := "A".data, params := [] }] ∧
    weaveTarget exDocAB = Except.ok exWovenAB ∧
    innermostDecor exWovenAB = some "B".data ∧
    exWovenAB ≠
      WovenBody.wrapped "B".data (WovenBody.wrapped "A".data WovenBody.original) := by
  refine ⟨rfl, rfl, rfl, ?_⟩
  decide

/-- C1 (amended): for a target with exactly two directives `A` then `B`
(top-to-bottom in source), the scanner collects them bottom-up and the chain
loop applies them in that bottom-up order with no reversal, so `B` — the
last directive in source order — is applied first and its wrapping is
innermost, while `A` wraps the result. -/
theorem chain_applies_last_directive_first
    (a b : DecorComment) (na nb : Chars)
    (pa pb : List (Chars × Chars))
    (ha : decoratorScanFlag.isPrefixOf a.text = true)
    (hb : decoratorScanFlag.isPrefixOf b.text = true)
    (hpa : parseDecorAndParameters (a.text.drop decoratorScanFlag.length) =
      Except.ok (na, pa))
    (hpb : parseDecorAndParameters (b.text.drop decoratorScanFlag.length) =
      Except.ok (nb, pb))
    (hne : na ≠ nb) :
    collDecorAnnots [a, b] =
      Except.ok [{ docPos := b.pos, name := nb, params := pb },
                 { docPos := a.pos, name := na, params := pa }] ∧
    weaveTarget [a, b] =
      Except.ok (WovenBody.wrapped na (WovenBody.wrapped nb WovenBody.original)) := by
  have hcoll : collDecorAnnots [a, b] =
      Except.ok [{ docPos := b.pos, name := nb, params := pb },
                 { docPos := a.pos, name := na, params := pa }] := by
    simp only [collDecorAnnots, List.reverse_cons, List.reverse_nil,
      List.nil_append, List.cons_append, scanDecorsRev, hb, if_true, hpb,
      List.find?_nil, Option.map_none', ha, hpa, List.find?_cons]
    have : ((nb : Chars) = na) = False := by
      simp [eq_comm, hne]
    simp [this]
  refine ⟨hcoll, ?_⟩
  simp [weaveTarget, hcoll, weaveChain]

/-- Witness for `chain_applies_last_directive_first` at the concrete
two-directive target `exDocAB`. -/
theorem chain_applies_last_directive_first_witness :
    collDecorAnnots exDocAB =
      Except.ok [{ docPos := 20, name := "B".data, params := [] },
                 { docPos := 10, name := "A".data, params := [] }] ∧
    weaveTarget exDocAB = Except.ok exWovenAB :=
  chain_applies_last_directive_first
    { text := "//go:decor A".data, pos := 10 }
    { text := "//go:decor B".data, pos := 20 }
    "A".data "B".data [] [] (by decide) (by decide) (by rfl) (by rfl) (by decide)

/-- C5: a function whose sole parameter has the decorator context type
(`*<alias>.Context` for the alias the file's import table resolves for the
decorator support path, with the blank import promoted to `decor`), with no
receiver and exactly one parameter, fails the per-directive check with the
cannot-decorate-a-decorator error, whatever directive is being applied. -/
theorem cannot_decorate_a_decorator
    (imp : Importer) (fd : FuncDeclM) (n : Chars)
    (himp : importedPath imp decoratorPackagePath = some n)
    (hdec : funIsDecorator fd (if n = "_".data then "decor".data else n) = true) :
    directiveSelfCheck fd imp = Except.error CompileErr.cantUsedOnDecoratorFunc := by
  unfold directiveSelfCheck resolveDecorAlias
  rw [himp]
  by_cases h : n = "_".data
  · simp only [h, if_true]
    rw [h] at hdec
    simp only [if_true] at hdec
    simp [hdec]
  · simp only [h, if_false]
    rw [if_neg h] at hdec
    simp [hdec]

/-- Witness for `cannot_decorate_a_decorator`: a one-parameter
`func(ctx *decor.Context)` under an importer that binds the support path to
`decor`. -/
theorem cannot_decorate_a_decorator_witness :
    directiveSelfCheck
      { name := "myDecor".data, recv := none,
        params := [{ names := ["ctx".data], typ := "*decor.Context".data }],
        results := [], doc := [] }
      (newImporter [{ name := none, path := decoratorPackagePath }]) =
      Except.error CompileErr.cantUsedOnDecoratorFunc :=
  cannot_decorate_a_decorator
    (newImporter [{ name := none, path := decoratorPackagePath }])
    { name := "myDecor".data, recv := none,
      params := [{ names := ["ctx".data], typ := "*decor.Context".data }],
      results := [], doc := [] }
    "decor".data (by rfl) (by rfl)

/-- C3 (counterexample): the decorator declares
`required: {level: {"a","b"}}` on the string parameter `level`; the attached
enum is `{"a","b"}` and the empty string fails enum membership, yet a
directive that omits `level` still succeeds: the omitted parameter receives
the default `""` without any enum re-check, so the omission does not fail as
the claim requires. -/
theorem omitted_enum_param_defaults_without_check :
    parseLinterFromDocGroup levelDeclDoc (collDeclFuncParamsAnfTypes levelDeclParams) =
      Except.ok
        [{ index := 0, name := "ctx".data, typ := "*decor.Context".data,
           required := none, nonzero := false },
         { index := 1, name := "level".data, typ := "string".data,
           required := some { compare := none,
                              enum := some ["\"a\"".data, "\"b\"".data] },
           nonzero := false }] ∧
    inEnum { compare := none, enum := some ["\"a\"".data, "\"b\"".data] }
      "\"\"".data = false ∧
    checkDecorAndGetParam impDecor levelDeclParams levelDeclDoc [] =
      Except.ok ["\"\"".data] := by
  refine ⟨rfl, by decide, rfl⟩

/-- C3 (amended): for a decorator declaring `required: {level: {"a","b"}}`
on a string parameter `level`, a directive supplying `level: "c"` fails
validation and supplying `level: "a"` succeeds; omitting `level` (when it is
not declared nonzero) always defaults it to the empty string and succeeds —
the default value is not checked against the enum. -/
theorem required_enum_validation :
    checkDecorAndGetParam impDecor levelDeclParams levelDeclDoc
      [("level".data, "\"c\"".data)] =
      Except.error (CheckErr.enumLintFail "level".data "\"c\"".data) ∧
    checkDecorAndGetParam impDecor levelDeclParams levelDeclDoc
      [("level".data, "\"a\"".data)] =
      Except.ok ["\"a\"".data] ∧
    ∀ (v : decorArg) (annot : List (Chars × Chars)),
      v.nonzero = false → typeKind v = BasicInfo.isString →
      assocGet annot v.name = none →
      checkOneParam v annot = Except.ok "\"\"".data := by
  refine ⟨rfl, rfl, ?_⟩
  intro v annot hnz hty hnone
  simp [checkOneParam, hnone, hnz, hty]

/-- Witness for `required_enum_validation`: the omitted-parameter clause at
the concrete linted `level` parameter. -/
theorem required_enum_validation_witness :
    checkOneParam
      { index := 1, name := "level".data, typ := "string".data,
        required := some { compare := none, enum := some ["\"a\"".data, "\"b\"".data] },
        nonzero := false } [] = Except.ok "\"\"".data :=
  required_enum_validation.2.2
    { index := 1, name := "level".data, typ := "string".data,
      required := some { compare := none, enum := some ["\"a\"".data, "\"b\"".data] },
      nonzero := false } [] rfl rfl rfl

/-- C4: for a decorator declaring `nonzero: {count}` on the integer
parameter `count`, a directive omitting `count` fails, supplying `count: 0`
fails, and `count: 5` succeeds; in general a nonzero-marked parameter fails
validation exactly when no value is supplied or the supplied value is the
type's zero form — for integer/float parameters the literal parses
(`ParseFloat`, errors yielding `0`) to `0`, for a string parameter it is
`""`, for a boolean it is `false`. -/
theorem nonzero_lint_validation :
    checkDecorAndGetParam impDecor countDeclParams countDeclDoc [] =
      Except.error (CheckErr.nonzeroMissing "count".data) ∧
    checkDecorAndGetParam impDecor countDeclParams countDeclDoc
      [("count".data, "0".data)] =
      Except.error (CheckErr.nonzeroLintFail "count".data "0".data) ∧
    checkDecorAndGetParam impDecor countDeclParams countDeclDoc
      [("count".data, "5".data)] =
      Except.ok ["5".data] ∧
    (∀ (v : decorArg) (value : Chars), v.nonzero = true →
      (passNonzeroLint v value =
          Except.error (CheckErr.nonzeroLintFail v.name value) ↔
        valueIsZero v value = true)) ∧
    (∀ (v : decorArg) (annot : List (Chars × Chars)), v.nonzero = true →
      assocGet annot v.name = none →
      checkOneParam v annot = Except.error (CheckErr.nonzeroMissing v.name)) ∧
    (∀ (v : decorArg) (value : Chars), typeKind v = BasicInfo.isInteger →
      (valueIsZero v value = true ↔ goParseFloatD value = 0)) := by
  refine ⟨rfl, rfl, rfl, ?_, ?_, ?_⟩
  · intro v value hnz
    by_cases hz : valueIsZero v value = true
    · simp [passNonzeroLint, hnz, hz]
    · simp [passNonzeroLint, hnz, hz]
  · intro v annot hnz hnone
    simp [checkOneParam, hnone, hnz]
  · intro v value hty
    simp [valueIsZero, hty]

/-- Witness for `nonzero_lint_validation`: its general clauses instantiated
at the nonzero-marked integer parameter `count`. -/
theorem nonzero_lint_validation_witness :
    (passNonzeroLint countArgNonzero "0".data =
        Except.error (CheckErr.nonzeroLintFail "count".data "0".data) ↔
      valueIsZero countArgNonzero "0".data = true) ∧
    checkOneParam countArgNonzero [] =
      Except.error (CheckErr.nonzeroMissing "count".data) ∧
    (valueIsZero countArgNonzero "7".data = true ↔ goParseFloatD "7".data = 0) :=
  ⟨nonzero_lint_validation.2.2.2.1 countArgNonzero "0".data rfl,
   nonzero_lint_validation.2.2.2.2.1 countArgNonzero [] rfl rfl,
   nonzero_lint_validation.2.2.2.2.2 countArgNonzero "7".data rfl⟩

/-- C9 (counterexample): the alias in the required `*<alias>.Context`
pattern comes from the import table of the file *declaring* the decorator,
not the target file's.  Concretely: the declaring file aliases the support
package as `d` while a target file binds it as `decor`; a decorator whose
parameter is `*d.Context` resolves successfully even though that type does
not match the target file's pattern `*decor.Context`, and a decorator whose
parameter is `*decor.Context` — the pattern the claim requires — fails with
the not-a-decorator-function error. -/
theorem decl_file_alias_counterexample :
    importedPath impDeclD decoratorPackagePath = some "d".data ∧
    importedPath impDecor decoratorPackagePath = some "decor".data ∧
    checkDecorAndGetParam impDeclD declParamsOwnAlias [] [] = Except.ok [] ∧
    "*d.Context".data ≠ contextTypePat "decor".data ∧
    checkDecorAndGetParam impDeclD declParamsTargetAlias [] [] =
      Except.error CheckErr.notDecoratorFunc ∧
    "*decor.Context".data = contextTypePat "decor".data := by
  refine ⟨rfl, rfl, rfl, by decide, rfl, by decide⟩

/-- C9 (amended): resolving a decorator declaration requires its index-0
parameter to have type `*<alias>.Context` where `<alias>` is the name
resolved by the import table of the file *containing the decorator's
declaration*; if the support path is not imported in that file, resolution
fails with the decor-package-not-found error, while a target file that does
not import the support path is rejected earlier, in the per-directive step,
with the decorator-package-not-imported error; if the first parameter does
not match the pattern, resolution fails with the not-a-decorator-function
error. -/
theorem decorator_resolution_context_requirements :
    (∀ (impTarget : Importer),
      importedPath impTarget decoratorPackagePath = none →
      resolveDecorAlias impTarget = Except.error CompileErr.decorPkgNotImported) ∧
    (∀ (imp : Importer) (declParams : List GoField)
        (declDoc : List DecorComment) (annot : List (Chars × Chars)),
      importedPath imp decoratorPackagePath = none →
      checkDecorAndGetParam imp declParams declDoc annot =
        Except.error CheckErr.decorPkgNotFound) ∧
    (∀ (imp : Importer) (declParams : List GoField)
        (declDoc : List DecorComment) (annot : List (Chars × Chars))
        (pkgName : Chars) (v : decorArg),
      importedPath imp decoratorPackagePath = some pkgName →
      v ∈ collDeclFuncParamsAnfTypes declParams →
      v.index = 0 → v.typ ≠ contextTypePat pkgName →
      checkDecorAndGetParam imp declParams declDoc annot =
        Except.error CheckErr.notDecoratorFunc) := by
  refine ⟨?_, ?_, ?_⟩
  · intro impTarget himp
    simp [resolveDecorAlias, himp]
  · intro imp declParams declDoc annot himp
    simp [checkDecorAndGetParam, himp]
  · intro imp declParams declDoc annot pkgName v himp hv hidx htyp
    have hne : collDeclFuncParamsAnfTypes declParams ≠ [] := by
      intro h
      rw [h] at hv
      exact absurd hv (List.not_mem_nil v)
    have hlen : ¬ (collDeclFuncParamsAnfTypes declParams).length < 1 := by
      simp only [Nat.lt_one_iff, List.length_eq_zero]
      exact hne
    have hany : (collDeclFuncParamsAnfTypes declParams).any
        (fun v => v.index = 0 && v.typ ≠ contextTypePat pkgName) = true := by
      refine List.any_eq_true.mpr ⟨v, hv, ?_⟩
      simp [hidx, htyp]
    simp only [checkDecorAndGetParam, himp, hlen, if_false, hany, if_true]

/-- Witness for `decorator_resolution_context_requirements`: a target file
that does not import the support package, a declaring file that also lacks
the import, and a declaration whose first parameter is an `int`. -/
theorem decorator_resolution_context_requirements_witness :
    resolveDecorAlias (newImporter []) =
      Except.error CompileErr.decorPkgNotImported ∧
    checkDecorAndGetParam (newImporter []) [] [] [] =
      Except.error CheckErr.decorPkgNotFound ∧
    checkDecorAndGetParam impDecor [{ names := ["x".data], typ := "int".data }] [] [] =
      Except.error CheckErr.notDecoratorFunc :=
  ⟨decorator_resolution_context_requirements.1 (newImporter []) rfl,
   decorator_resolution_context_requirements.2.1 (newImporter []) [] [] [] rfl,
   decorator_resolution_context_requirements.2.2 impDecor
     [{ names := ["x".data], typ := "int".data }] [] [] "decor".data
     { index := 0, name := "x".data, typ := "int".data,
       required := none, nonzero := false }
     rfl (by decide) rfl (by decide)⟩

/-- C6 (counterexample): the type name `T` carries directives and is
declared twice, yet `typeDecorRebuild` succeeds — a declaration that itself
contributes no directive comments is invisible to the duplicate check, so
the claim's "declared twice is an error" fails on this input. -/
theorem duplicate_type_one_sided_no_error :
    typeComments tDupWith ≠ [] ∧
    tDupWith.name = tDupWithout.name ∧
    typeDecorRebuild [dupFile] = Except.ok [dupFile] := by
  refine ⟨by decide, rfl, rfl⟩

/-- C6 (amended): before per-function scanning, the trailing contiguous
directive comments of a type declaration (from the type spec's doc and the
enclosing declaration's doc) are appended to the doc of every method whose
receiver base type name matches — including pointer and generic receiver
forms — and to no other declaration; a type name is an error when declared
twice with *both* declarations carrying directive comments (a duplicate
declaration without directives is ignored). -/
theorem type_directive_propagation :
    (∀ (t1 t2 : TypeSpecM) (fs : List FuncDeclM),
      t1.name = t2.name → typeComments t1 ≠ [] → typeComments t2 ≠ [] →
      typeDecorRebuild [{ types := [t1, t2], funcs := fs }] =
        Except.error (t2.namePos, t2.name)) ∧
    (∀ (files : List FileM) (m : List (Chars × List DecorComment)),
      phase1Files files [] = Except.ok m →
      typeDecorRebuild files =
        Except.ok (if m.isEmpty then files
          else files.map (fun f => { f with funcs := f.funcs.map (propagateToFunc m) }))) ∧
    (∀ (m : List (Chars × List DecorComment)) (fd : FuncDeclM),
      fd.recv = none → propagateToFunc m fd = fd) ∧
    (∀ (m : List (Chars × List DecorComment)) (fd : FuncDeclM) (rx : RecvM)
        (e : Chars × List DecorComment),
      fd.recv = some rx → identName rx.typExpr ≠ [] →
      m.find? (fun en => en.1 = identName rx.typExpr) = some e → e.2 ≠ [] →
      propagateToFunc m fd = { fd with doc := fd.doc ++ e.2 }) ∧
    (∀ (m : List (Chars × List DecorComment)) (fd : FuncDeclM) (rx : RecvM),
      fd.recv = some rx →
      m.find? (fun en => en.1 = identName rx.typExpr) = none →
      propagateToFunc m fd = fd) ∧
    (∀ n : Chars,
      identName (RExpr.id n) = n ∧
      identName (RExpr.star (RExpr.id n)) = n ∧
      identName (RExpr.indexE (RExpr.id n)) = n ∧
      identName (RExpr.indexList (RExpr.id n)) = n ∧
      identName (RExpr.star (RExpr.indexE (RExpr.id n))) = n ∧
      identName (RExpr.star (RExpr.indexList (RExpr.id n))) = n) := by
  refine ⟨?_, ?_, ?_, ?_, ?_, ?_⟩
  · intro t1 t2 fs heq h1 h2
    obtain ⟨c1, cs1, hc1⟩ := List.exists_cons_of_ne_nil h1
    obtain ⟨c2, cs2, hc2⟩ := List.exists_cons_of_ne_nil h2
    simp [typeDecorRebuild, phase1Files, phase1Types, hc1, hc2, heq]
  · intro files m hphase
    simp only [typeDecorRebuild, hphase]
    split <;> rename_i h
    · simp [h]
    · simp [h]
  · intro m fd h
    simp [propagateToFunc, h]
  · intro m fd rx e hrecv htn hfind hne
    simp [propagateToFunc, hrecv, htn, hfind, hne]
  · intro m fd rx hrecv hfind
    by_cases htn : identName rx.typExpr = []
    · simp [propagateToFunc, hrecv, htn]
    · simp [propagateToFunc, hrecv, htn, hfind]
  · intro n
    exact ⟨rfl, rfl, rfl, rfl, rfl, rfl⟩

/-- Witness for `type_directive_propagation`: the duplicate error when both
declarations of `T` carry directives, the rewrite of a one-type one-method
file, and the propagation dichotomy at that method and function. -/
theorem type_directive_propagation_witness :
    typeDecorRebuild [{ types := [tProp, tDupBoth], funcs := [] }] =
      Except.error (9, "T".data) ∧
    typeDecorRebuild [propFile] =
      Except.ok (if propMap.isEmpty then [propFile]
        else [propFile].map
          (fun f => { f with funcs := f.funcs.map (propagateToFunc propMap) })) ∧
    propagateToFunc propMap oProp = oProp ∧
    propagateToFunc propMap mProp =
      { mProp with doc := mProp.doc ++ [{ text := "//go:decor logging".data, pos := 1 }] } ∧
    propagateToFunc [] mProp = mProp :=
  ⟨type_directive_propagation.1 tProp tDupBoth [] rfl (by decide) (by decide),
   type_directive_propagation.2.1 [propFile] propMap (by rfl),
   type_directive_propagation.2.2.1 propMap oProp rfl,
   type_directive_propagation.2.2.2.1 propMap mProp
     { varName := "s".data, typExpr := RExpr.star (RExpr.id "T".data) }
     ("T".data, [{ text := "//go:decor logging".data, pos := 1 }])
     rfl (by decide) (by rfl) (by decide),
   type_directive_propagation.2.2.2.2.1 [] mProp
     { varName := "s".data, typExpr := RExpr.star (RExpr.id "T".data) } rfl rfl⟩

theorem foldl_add_shift (k : GoField → Nat) (fs : List GoField) (n : Nat) :
    fs.foldl (fun acc f => acc + k f) n = n + fs.foldl (fun acc f => acc + k f) 0 := by
  induction fs generalizing n with
  | nil => simp
  | cons f rest ih =>
    simp only [List.foldl_cons]
    rw [ih (n + k f), ih (0 + k f)]
    omega

theorem numFields_cons (f : GoField) (rest : List GoField) :
    numFields (f :: rest) =
      (if f.names.length = 0 then 1 else f.names.length) + numFields rest := by
  simp only [numFields, List.foldl_cons, Nat.zero_add]
  exact foldl_add_shift _ rest _

theorem nextStr_ident (g : GenIdentId) : (nextStr g).2.ident = g.ident := rfl

theorem nextStr_ne_underscore (g : GenIdentId) (h2 : 2 ≤ g.ident.length) :
    (nextStr g).1 ≠ "_".data := by
  intro h
  have hlen := congrArg List.length h
  simp only [nextStr, List.length_append, List.length_cons, List.length_nil] at hlen
  omega

theorem collectFieldNames_length (typ : Chars) (names : List Chars) (g : GenIdentId) :
    ((collectFieldNames typ names g).1).length = names.length := by
  induction names generalizing g with
  | nil => rfl
  | cons nm rest ih =>
    by_cases h : nm = "_".data
    · simp [collectFieldNames, h, ih]
    · simp [collectFieldNames, h, ih]

theorem collectFieldNames_ident (typ : Chars) (names : List Chars) (g : GenIdentId) :
    ((collectFieldNames typ names g).2).ident = g.ident := by
  induction names generalizing g with
  | nil => rfl
  | cons nm rest ih =>
    by_cases h : nm = "_".data
    · simp [collectFieldNames, h, ih, nextStr_ident]
    · simp [collectFieldNames, h, ih]

theorem collectFieldNames_no_underscore (typ : Chars) (names : List Chars)
    (g : GenIdentId) (h2 : 2 ≤ g.ident.length) :
    ∀ p ∈ (collectFieldNames typ names g).1, p.1 ≠ "_".data := by
  induction names generalizing g with
  | nil => intro p hp; exact absurd hp (List.not_mem_nil p)
  | cons nm rest ih =>
    intro p hp
    by_cases h : nm = "_".data
    · simp only [collectFieldNames, h, if_true] at hp
      rcases List.mem_cons.mp hp with h1 | h1
      · subst h1
        exact nextStr_ne_underscore g h2
      · exact ih (nextStr g).2 (by rw [nextStr_ident]; exact h2) p h1
    · simp only [collectFieldNames, h, if_false] at hp
      rcases List.mem_cons.mp hp with h1 | h1
      · subst h1; exact h
      · exact ih g h2 p h1

theorem collectArgs_length (fs : List GoField) (g : GenIdentId) :
    ((collectArgs fs g).1).length = totalNames fs := by
  induction fs generalizing g with
  | nil => rfl
  | cons f rest ih =>
    by_cases h : f.names.length = 0
    · have : f.names = [] := List.length_eq_zero.mp h
      simp [collectArgs, h, ih, totalNames, this]
    · simp [collectArgs, h, ih, totalNames, collectFieldNames_length]

theorem collectArgs_ident (fs : List GoField) (g : GenIdentId) :
    ((collectArgs fs g).2).ident = g.ident := by
  induction fs generalizing g with
  | nil => rfl
  | cons f rest ih =>
    by_cases h : f.names.length = 0
    · simp [collectArgs, h, ih]
    · simp [collectArgs, h, ih, collectFieldNames_ident]

theorem collectArgs_no_underscore (fs : List GoField) (g : GenIdentId)
    (h2 : 2 ≤ g.ident.length) :
    ∀ p ∈ (collectArgs fs g).1, p.1 ≠ "_".data := by
  induction fs generalizing g with
  | nil => intro p hp; exact absurd hp (List.not_mem_nil p)
  | cons f rest ih =>
    intro p hp
    by_cases h : f.names.length = 0
    · simp only [collectArgs, h, if_true] at hp
      exact ih g h2 p hp
    · simp only [collectArgs, h, if_false, List.mem_append] at hp
      rcases hp with h1 | h1
      · exact collectFieldNames_no_underscore f.typ f.names g h2 p h1
      · exact ih (collectFieldNames f.typ f.names g).2
          (by rw [collectFieldNames_ident]; exact h2) p h1

theorem fixResultNames_total (rs : List GoField) (g : GenIdentId) :
    totalNames ((fixResultNames rs g).1) = numFields rs := by
  induction rs generalizing g with
  | nil => rfl
  | cons f rest ih =>
    rw [numFields_cons]
    by_cases h : f.names.isEmpty
    · have hnil : f.names = [] := List.isEmpty_iff.mp h
      simp [fixResultNames, h, totalNames, hnil, ← ih (nextStr g).2, totalNames]
    · have hnz : f.names.length ≠ 0 := by
        intro hc
        exact absurd (List.isEmpty_iff.mpr (List.length_eq_zero.mp hc)) h
      simp [fixResultNames, h, totalNames, hnz, ← ih g, totalNames]

theorem fixResultNames_ident (rs : List GoField) (g : GenIdentId) :
    ((fixResultNames rs g).2).ident = g.ident := by
  induction rs generalizing g with
  | nil => rfl
  | cons f rest ih =>
    by_cases h : f.names.isEmpty
    · simp [fixResultNames, h, ih, nextStr_ident]
    · simp [fixResultNames, h, ih]

/-- C8 (counterexample): a parameter field declaring *no* name at all is
skipped by the parameter loop — no identifier is synthesized for it — so the
context's input list does not cover all parameters: `func f(int)` has one
parameter slot but an empty `InArgNames`. -/
theorem unnamed_param_slot_skipped :
    ((builderReplaceArgs unnamedParamFd giEx).1).inArgNames = [] ∧
    numFields unnamedParamFd.params = 1 := by
  exact ⟨rfl, rfl⟩

/-- C8 (amended): when building the replacement descriptor, every unnamed
*result* field is assigned a synthesized identifier and every `_`-named
parameter or result is renamed to a synthesized identifier, so the output
list covers all result slots and no collected name is the blank identifier;
parameter fields that declare no names at all are skipped, so the input list
covers exactly the declared parameter names. -/
theorem replace_args_name_synthesis (fd : FuncDeclM) (g : GenIdentId)
    (h2 : 2 ≤ g.ident.length) :
    ((builderReplaceArgs fd g).1).outArgNames.length = numFields fd.results ∧
    (∀ nm ∈ ((builderReplaceArgs fd g).1).outArgNames, nm ≠ "_".data) ∧
    ((builderReplaceArgs fd g).1).inArgNames.length = totalNames fd.params ∧
    (∀ nm ∈ ((builderReplaceArgs fd g).1).inArgNames, nm ≠ "_".data) := by
  have hident1 : ((fixResultNames fd.results g).2).ident = g.ident :=
    fixResultNames_ident fd.results g
  have hident2 :
      ((collectArgs (fixResultNames fd.results g).1 (fixResultNames fd.results g).2).2).ident
        = g.ident := by
    rw [collectArgs_ident, hident1]
  refine ⟨?_, ?_, ?_, ?_⟩
  · simp only [builderReplaceArgs, List.length_map]
    rw [collectArgs_length, fixResultNames_total]
  · intro nm hnm
    simp only [builderReplaceArgs, List.mem_map] at hnm
    obtain ⟨p, hp, hpe⟩ := hnm
    subst hpe
    exact collectArgs_no_underscore _ _ (by rw [hident1]; exact h2) p hp
  · simp only [builderReplaceArgs, List.length_map]
    rw [collectArgs_length]
  · intro nm hnm
    simp only [builderReplaceArgs, List.mem_map] at hnm
    obtain ⟨p, hp, hpe⟩ := hnm
    subst hpe
    exact collectArgs_no_underscore _ _ (by rw [hident2]; exact h2) p hp

/-- Witness for `replace_args_name_synthesis`: a function with an unnamed
result and a `_` parameter. -/
theorem replace_args_name_synthesis_witness :
    (((builderReplaceArgs
        { name := "g".data, recv := none,
          params := [{ names := ["_".data], typ := "int".data }],
          results := [{ names := [], typ := "error".data }], doc := [] }
        giEx).1).outArgNames.length =
      numFields [({ names := [], typ := "error".data } : GoField)]) ∧
    (∀ nm ∈ ((builderReplaceArgs
        { name := "g".data, recv := none,
          params := [{ names := ["_".data], typ := "int".data }],
          results := [{ names := [], typ := "error".data }], doc := [] }
        giEx).1).outArgNames, nm ≠ "_".data) ∧
    (((builderReplaceArgs
        { name := "g".data, recv := none,
          params := [{ names := ["_".data], typ := "int".data }],
          results := [{ names := [], typ := "error".data }], doc := [] }
        giEx).1).inArgNames.length =
      totalNames [({ names := ["_".data], typ := "int".data } : GoField)]) ∧
    (∀ nm ∈ ((builderReplaceArgs
        { name := "g".data, recv := none,
          params := [{ names := ["_".data], typ := "int".data }],
          results := [{ names := [], typ := "error".data }], doc := [] }
        giEx).1).inArgNames, nm ≠ "_".data) :=
  replace_args_name_synthesis
    { name := "g".data, recv := none,
      params := [{ names := ["_".data], typ := "int".data }],
      results := [{ names := [], typ := "error".data }], doc := [] }
    giEx (by decide)

theorem splitOnChar_ne_nil (c : Char) (l : Chars) : splitOnChar c l ≠ [] := by
  induction l with
  | nil => simp [splitOnChar]
  | cons x xs ih =>
    simp only [splitOnChar]
    match h : splitOnChar c xs with
    | [] => exact absurd h ih
    | h' :: t => by_cases hx : x = c <;> simp [hx]

theorem splitOnChar_no_sep (c : Char) (l : Chars) (h : ∀ x ∈ l, x ≠ c) :
    splitOnChar c l = [l] := by
  induction l with
  | nil => rfl
  | cons x xs ih =>
    have hx : x ≠ c := h x (List.mem_cons_self x xs)
    have hxs := ih (fun y hy => h y (List.mem_cons_of_mem x hy))
    simp [splitOnChar, hxs, hx]

theorem splitOnChar_append_sep (c : Char) (l r : Chars) (h : ∀ x ∈ l, x ≠ c) :
    splitOnChar c (l ++ c :: r) = l :: splitOnChar c r := by
  induction l with
  | nil =>
    simp only [List.nil_append, splitOnChar]
    match hr : splitOnChar c r with
    | [] => exact absurd hr (splitOnChar_ne_nil c r)
    | h' :: t => simp
  | cons x xs ih =>
    have hx : x ≠ c := h x (List.mem_cons_self x xs)
    have hih : splitOnChar c (xs.append (c :: r)) = xs :: splitOnChar c r :=
      ih (fun y hy => h y (List.mem_cons_of_mem x hy))
    simp only [List.cons_append, splitOnChar, hih, hx, if_false]

theorem joinSep_concat (c : Char) (xs : List Chars) (y : Chars) (h : xs ≠ []) :
    joinSep c (xs ++ [y]) = joinSep c xs ++ c :: y := by
  induction xs with
  | nil => exact absurd rfl h
  | cons s rest ih =>
    cases rest with
    | nil => rfl
    | cons s' rest' =>
      have h2 : joinSep c ((s' :: rest') ++ [y]) = joinSep c (s' :: rest') ++ c :: y :=
        ih (by simp)
      show s ++ c :: joinSep c ((s' :: rest') ++ [y]) =
        (s ++ c :: joinSep c (s' :: rest')) ++ c :: y
      rw [h2]
      simp

theorem splitOnChar_joinSep (c : Char) (ss : List Chars) (hne : ss ≠ [])
    (h : ∀ s ∈ ss, ∀ x ∈ s, x ≠ c) : splitOnChar c (joinSep c ss) = ss := by
  induction ss with
  | nil => exact absurd rfl hne
  | cons s rest ih =>
    cases rest with
    | nil => exact splitOnChar_no_sep c s (h s (List.mem_cons_self s []))
    | cons s' rest' =>
      have hjoin : joinSep c (s :: s' :: rest') = s ++ c :: joinSep c (s' :: rest') := rfl
      rw [hjoin, splitOnChar_append_sep c s _ (h s (List.mem_cons_self s _)),
        ih (by simp) (fun t ht x hx => h t (List.mem_cons_of_mem s ht) x hx)]

theorem takeWhile_append_stop (p : Char → Bool) (l : Chars) (x : Char) (r : Chars)
    (h : ∀ y ∈ l, p y = true) (hx : p x = false) :
    (l ++ x :: r).takeWhile p = l := by
  induction l with
  | nil => simp [List.takeWhile_cons, hx]
  | cons a as ih =>
    have ha := h a (List.mem_cons_self a as)
    simp only [List.cons_append, List.takeWhile_cons, ha, if_true]
    rw [ih (fun y hy => h y (List.mem_cons_of_mem a hy))]

theorem dropWhile_head_false (p : Char → Bool) (x : Char) (r : Chars)
    (hx : p x = false) : ((x :: r) : Chars).dropWhile p = x :: r := by
  simp [List.dropWhile_cons, hx]

theorem goBase_concat (l y : Chars) (hy : y ≠ []) (hsep : ∀ x ∈ y, x ≠ '/') :
    goBase (l ++ '/' :: y) = y := by
  have hne : l ++ '/' :: y ≠ [] := by simp
  obtain ⟨b, bs, hrev⟩ : ∃ b bs, y.reverse = b :: bs := by
    match hw : y.reverse with
    | [] =>
      have : y = [] := by
        have := congrArg List.reverse hw
        simpa using this
      exact absurd this hy
    | b :: bs => exact ⟨b, bs, rfl⟩
  have hb : b ∈ y := by
    have : b ∈ y.reverse := by rw [hrev]; exact List.mem_cons_self b bs
    exact List.mem_reverse.mp this
  have hbne : b ≠ '/' := hsep b hb
  have hrev2 : (l ++ '/' :: y).reverse = b :: (bs ++ '/' :: l.reverse) := by
    rw [List.reverse_append, List.reverse_cons, List.append_assoc, hrev]
    rfl
  have hdrop : (l ++ '/' :: y).reverse.dropWhile (· = '/') =
      b :: (bs ++ '/' :: l.reverse) := by
    rw [hrev2]
    apply dropWhile_head_false
    show decide (b = '/') = false
    exact decide_eq_false hbne
  have htake : ((b :: (bs ++ '/' :: l.reverse)) : Chars).takeWhile
      (fun ch => ch ≠ '/') = b :: bs := by
    have hsh : (b :: (bs ++ '/' :: l.reverse) : Chars) = (b :: bs) ++ '/' :: l.reverse := by
      simp
    rw [hsh]
    apply takeWhile_append_stop
    · intro yc hyc
      have hmem : yc ∈ y := by
        rw [← List.mem_reverse, hrev]
        exact hyc
      simp [hsep yc hmem]
    · simp
  simp only [goBase, hne, if_false, hdrop]
  rw [if_neg (by simp), htake, ← hrev, List.reverse_reverse]

theorem goExtRev_stop (l r : Chars) (h : ∀ x ∈ l, x ≠ '/' ∧ x ≠ '.') :
    ∀ acc, goExtRev (l ++ '/' :: r) acc = [] := by
  induction l with
  | nil => intro acc; simp [goExtRev]
  | cons a as ih =>
    intro acc
    have ha := h a (List.mem_cons_self a as)
    simp only [List.cons_append, goExtRev, ha.1, ha.2, if_false]
    exact ih (fun y hy => h y (List.mem_cons_of_mem a hy)) (a :: acc)

theorem goExt_concat (l y : Chars) (h : ∀ x ∈ y, x ≠ '/' ∧ x ≠ '.') :
    goExt (l ++ '/' :: y) = [] := by
  unfold goExt
  have hrev : (l ++ '/' :: y).reverse = y.reverse ++ '/' :: l.reverse := by
    rw [List.reverse_append, List.reverse_cons, List.append_assoc]
    rfl
  rw [hrev]
  exact goExtRev_stop y.reverse l.reverse
    (fun x hx => h x (List.mem_reverse.mp hx)) []

theorem trimRight_nil_cutset (s : Chars) : goTrimRightCutset s [] = s := by
  unfold goTrimRightCutset
  have : s.reverse.dropWhile (fun c => ([] : Chars).contains c) = s.reverse := by
    induction s.reverse with
    | nil => rfl
    | cons x xs ih => simp [List.dropWhile_cons, ih]
  rw [this, List.reverse_reverse]

theorem concat_getElemQ (xs : List Chars) (hxs : xs ≠ []) (y : Chars) :
    (xs ++ [y])[xs.length - 1]? = some (xs.getLast hxs) := by
  induction xs with
  | nil => exact absurd rfl hxs
  | cons a as ih =>
    cases as with
    | nil => rfl
    | cons b bs =>
      have hlen : (a :: b :: bs : List Chars).length - 1 = (b :: bs : List Chars).length := by
        simp
      rw [hlen]
      have hstep : ((a :: b :: bs) ++ [y])[(b :: bs : List Chars).length]? =
          ((b :: bs) ++ [y])[(b :: bs : List Chars).length - 1]? := by
        simp only [List.cons_append]
        rw [List.getElem?_cons]
        have hz : ((b :: bs : List Chars).length = 0) = False := by simp
        simp only [hz, if_false]
      rw [hstep, ih (by simp)]
      rfl

/-- C7: for a plain (un-aliased) import, the local binding name is derived
from the path's last segment, replaced by the second-to-last segment exactly
when the last segment is a major-version segment `v<n>` with `n > 1`:
`github.com/user/project/v2` binds as `project`, while
`github.com/user/project/v1` binds as `v1` and `github.com/user/project`
binds as `project`; in general, over any slash-joined dot-free segments. -/
theorem plain_import_version_name_derivation :
    importEntryName { name := none, path := "github.com/user/project/v2".data } =
      "project".data ∧
    importEntryName { name := none, path := "github.com/user/project/v1".data } =
      "v1".data ∧
    importEntryName { name := none, path := "github.com/user/project".data } =
      "project".data ∧
    importedName (newImporter [{ name := none, path := "github.com/user/project/v2".data }])
      "project".data = some "github.com/user/project/v2".data ∧
    ∀ (xs : List Chars) (y : Chars) (hxs : xs ≠ []),
      (∀ s ∈ xs ++ [y], s ≠ [] ∧ ∀ x ∈ s, x ≠ '/') →
      (∀ x ∈ y, x ≠ '.') →
      importEntryName { name := none, path := joinSep '/' (xs ++ [y]) } =
        (if isMajorVersionSeg y then xs.getLast hxs else y) := by
  refine ⟨by rfl, by rfl, by rfl, by rfl, ?_⟩
  intro xs y hxs hseg hdot
  have hy := hseg y (by simp)
  have hjoin : joinSep '/' (xs ++ [y]) = joinSep '/' xs ++ '/' :: y :=
    joinSep_concat '/' xs y hxs
  have hbase : goBase (joinSep '/' (xs ++ [y])) = y := by
    rw [hjoin]
    exact goBase_concat _ y hy.1 (fun x hx => hy.2 x hx)
  have hext : goExt (joinSep '/' (xs ++ [y])) = [] := by
    rw [hjoin]
    exact goExt_concat _ y (fun x hx => ⟨hy.2 x hx, hdot x hx⟩)
  have hsplit : splitOnChar '/' (joinSep '/' (xs ++ [y])) = xs ++ [y] := by
    apply splitOnChar_joinSep '/' (xs ++ [y]) (by simp)
    intro s hs x hx
    exact (hseg s hs).2 x hx
  show extNameOf (joinSep '/' (xs ++ [y])) = _
  unfold extNameOf
  rw [hbase, hext, trimRight_nil_cutset]
  by_cases hv : isMajorVersionSeg y
  · simp only [hv, if_true]
    rw [hsplit]
    have hlen : (xs ++ [y]).length > 1 := by
      cases xs with
      | nil => exact absurd rfl hxs
      | cons a as => simp
    rw [if_pos hlen]
    have hidx : (xs ++ [y]).length - 2 = xs.length - 1 := by simp
    rw [hidx, concat_getElemQ xs hxs y]
    rfl
  · simp [hv]

/-- Witness for `plain_import_version_name_derivation`: the general clause at
the segments of `github.com/user/project/v3`. -/
theorem plain_import_version_name_derivation_witness :
    importEntryName { name := none, path := joinSep '/' (segsEx ++ ["v3".data]) } =
      (if isMajorVersionSeg "v3".data then segsEx.getLast (by decide) else "v3".data) :=
  plain_import_version_name_derivation.2.2.2.2 segsEx "v3".data (by decide) (by decide)
    (by decide)

theorem initRequiredLinter_name (d : decorArg) :
    (initRequiredLinter d).name = d.name := by
  cases h : d.required <;> simp [initRequiredLinter, h]

theorem pushEnum_name (d : decorArg) (v : Chars) : (pushEnum d v).name = d.name := by
  unfold pushEnum
  cases h : (initRequiredLinter d).required <;>
    simp [h, initRequiredLinter_name d]

theorem putCompare_name (d : decorArg) (key : Chars) (v : Rat) :
    (putCompare d key v).name = d.name := by
  unfold putCompare
  cases h : (initRequiredLinter d).required <;>
    simp [h, initRequiredLinter_name d]

theorem obtainRequiredElem_name (dpt : decorArg) (lit : GoExpr) (dpt' : decorArg)
    (h : obtainRequiredElem dpt lit = Except.ok dpt') : dpt'.name = dpt.name := by
  unfold obtainRequiredElem at h
  repeat' split at h
  all_goals try cases h
  all_goals simp [pushEnum_name, putCompare_name]

theorem obtainRequiredElems_name (elts : List GoExpr) :
    ∀ (dpt dpt' : decorArg), obtainRequiredElems dpt elts = Except.ok dpt' →
      dpt'.name = dpt.name := by
  induction elts with
  | nil =>
    intro dpt dpt' h
    cases h
    rfl
  | cons e rest ih =>
    intro dpt dpt' h
    unfold obtainRequiredElems at h
    cases he : obtainRequiredElem dpt e with
    | error err => rw [he] at h; cases h
    | ok d1 =>
      rw [he] at h
      rw [ih d1 dpt' h]
      exact obtainRequiredElem_name dpt e d1 he

theorem argsGet_name (args : decorArgsMap) (nm : Chars) (d : decorArg)
    (h : argsGet args nm = some d) : d.name = nm := by
  have := List.find?_some h
  exact of_decide_eq_true this

theorem argsUpdate_names (args : decorArgsMap) (nm : Chars) (f : decorArg → decorArg)
    (hf : ∀ a : decorArg, a.name = nm → (f a).name = a.name) :
    (argsUpdate args nm f).map (fun a => a.name) = args.map (fun a => a.name) := by
  induction args with
  | nil => rfl
  | cons a rest ih =>
    by_cases h : a.name = nm
    · rw [show argsUpdate (a :: rest) nm f = f a :: argsUpdate rest nm f from by
        simp [argsUpdate, h]]
      simp only [List.map_cons]
      rw [hf a h, ih]
    · rw [show argsUpdate (a :: rest) nm f = a :: argsUpdate rest nm f from by
        simp [argsUpdate, h]]
      simp only [List.map_cons]
      rw [ih]

/-- C10: a `required:` or `nonzero:` lint annotation naming a parameter that
is not among the decorator's own declared parameters is rejected with the
lint-arg-key-not-found error, reported with the offending annotation line's
source position; and a successfully attached lint annotation only mutates
existing entries of the parameter map — the set of declared parameter names
is unchanged, so lint rules can only attach to declared decorator
parameters. -/
theorem lint_unknown_param_rejected :
    (∀ (args : decorArgsMap) (p : Nat) (ds : List DecorComment),
      argsGet args "foo".data = none →
      parseLinterFromDocGroup
          (ds ++ [{ text := decorLintScanFlag ++ "required: \x7bfoo\x7d".data, pos := p }])
          args =
        Except.error { err := LintErr.argsNotFound "foo".data, pos := p } ∧
      parseLinterFromDocGroup
          (ds ++ [{ text := decorLintScanFlag ++ "nonzero: \x7bfoo\x7d".data, pos := p }])
          args =
        Except.error { err := LintErr.argsNotFound "foo".data, pos := p }) ∧
    (∀ (v : GoExpr) (args args' : decorArgsMap),
      obtainRequiredLinter v args = Except.ok args' →
      args'.map (fun a => a.name) = args.map (fun a => a.name)) ∧
    (∀ (v : GoExpr) (args args' : decorArgsMap),
      obtainNonzeroLinter v args = Except.ok args' →
      args'.map (fun a => a.name) = args.map (fun a => a.name)) := by
  have hpre : ∀ (payload : Chars),
      decorLintScanFlag.isPrefixOf (decorLintScanFlag ++ payload) = true := by
    intro payload
    rw [List.isPrefixOf_iff_prefix]
    exact List.prefix_append _ _
  refine ⟨?_, ?_, ?_⟩
  · intro args p ds hget
    constructor
    · unfold parseLinterFromDocGroup
      rw [List.reverse_append]
      simp only [List.reverse_cons, List.reverse_nil, List.nil_append,
        List.cons_append, List.singleton_append]
      unfold parseLinterRev
      rw [hpre, if_pos rfl, List.drop_left]
      have hres : resolveLinterText "required: \x7bfoo\x7d".data args =
          match obtainRequiredLinter (GoExpr.identE "foo".data) args with
          | Except.error err => Except.error err
          | Except.ok args' => obtainAll obtainRequiredLinter [] args' := by
        rfl
      rw [hres]
      simp [obtainRequiredLinter, hget]
    · unfold parseLinterFromDocGroup
      rw [List.reverse_append]
      simp only [List.reverse_cons, List.reverse_nil, List.nil_append,
        List.cons_append, List.singleton_append]
      unfold parseLinterRev
      rw [hpre, if_pos rfl, List.drop_left]
      have hres : resolveLinterText "nonzero: \x7bfoo\x7d".data args =
          match obtainNonzeroLinter (GoExpr.identE "foo".data) args with
          | Except.error err => Except.error err
          | Except.ok args' => obtainAll obtainNonzeroLinter [] args' := by
        rfl
      rw [hres]
      simp [obtainNonzeroLinter, hget]
  · intro v args args' h
    simp only [obtainRequiredLinter] at h
    split at h
    · split at h
      · cases h
      · cases h
        rename_i nm x d hg
        exact argsUpdate_names args nm initRequiredLinter
          (fun a _ => initRequiredLinter_name a)
    · split at h
      · split at h
        · cases h
        · split at h
          · split at h
            · cases h
            · cases h
              rename_i x0 nm x1 dpt hg vv elts x2 dpt' he
              refine argsUpdate_names args nm (fun _ => dpt') ?_
              intro a ha
              rw [ha]
              rw [obtainRequiredElems_name elts dpt dpt' he]
              exact argsGet_name args nm dpt hg
          · cases h
      · cases h
    · cases h
  · intro v args args' h
    simp only [obtainNonzeroLinter] at h
    split at h
    · split at h
      · cases h
      · cases h
        rename_i nm x d hg
        exact argsUpdate_names args nm (fun a => { a with nonzero := true })
          (fun a _ => rfl)
    · cases h

/-- Witness for `lint_unknown_param_rejected`: the decorator declaring only
`ctx` and `count` rejects a lint annotation naming `foo`, at the annotation's
position 42; and attaching `nonzero: {count}` leaves the declared name set
unchanged. -/
theorem lint_unknown_param_rejected_witness :
    (parseLinterFromDocGroup
        [{ text := decorLintScanFlag ++ "required: \x7bfoo\x7d".data, pos := 42 }]
        (collDeclFuncParamsAnfTypes countDeclParams) =
      Except.error { err := LintErr.argsNotFound "foo".data, pos := 42 }) ∧
    ((argsUpdate (collDeclFuncParamsAnfTypes countDeclParams) "count".data
        (fun a => { a with nonzero := true })).map (fun a => a.name) =
      (collDeclFuncParamsAnfTypes countDeclParams).map (fun a => a.name)) :=
  ⟨((lint_unknown_param_rejected.1 (collDeclFuncParamsAnfTypes countDeclParams) 42 []
      (by rfl)).1).trans (by rfl),
   lint_unknown_param_rejected.2.2 (GoExpr.identE "count".data)
     (collDeclFuncParamsAnfTypes countDeclParams)
     (argsUpdate (collDeclFuncParamsAnfTypes countDeclParams) "count".data
        (fun a => { a with nonzero := true }))
     (by rfl)⟩

end GoDecorator
